import Mathlib

/-!
Shallow embedding of the cyfix-core healing pipeline
(packages/cyfix-core/src/{finder,scorer,generator}.ts and the orchestrator
in the core entry point), together with theorems settling the frozen
claims about it.

JavaScript numbers are modelled as rationals, JavaScript strings as Lean
strings, DOM trees as the `DOMNode` inductive, and JavaScript objects used
as string-keyed maps as association lists (object keys are unique, which
appears as a `Nodup` hypothesis where it matters).
-/

set_option maxHeartbeats 1600000

namespace CyFix

/-! ## JavaScript string helpers -/

/-- Truthiness of an optional string, as JavaScript sees it:
`undefined` and `""` are falsy, every other string truthy. -/
def truthy : Option String → Bool
  | none => false
  | some s => s != ""

/-- `chPre needle hay` : `needle` is a prefix of `hay` (on character lists). -/
def chPre : List Char → List Char → Bool
  | [], _ => true
  | _ :: _, [] => false
  | a :: as, b :: bs => a == b && chPre as bs

/-- `chInf needle hay` : `needle` occurs as a contiguous substring of `hay`. -/
def chInf (needle : List Char) : List Char → Bool
  | [] => chPre needle []
  | h :: t => chPre needle (h :: t) || chInf needle t

/-- JavaScript `hay.includes(needle)`. -/
def strContains (hay needle : String) : Bool := chInf needle.data hay.data

/-- JavaScript `s.startsWith(pre)`. -/
def jsStartsWith (s pre : String) : Bool := chPre pre.data s.data

/-- One pass of JavaScript `str.split(/\s+/)`: `inWs` records whether the
previous character belonged to a whitespace run, `cur` accumulates the
current token in reverse. -/
def wsSplitGo (inWs : Bool) (cur : List Char) : List Char → List (List Char)
  | [] => [cur.reverse]
  | c :: rest =>
    if c.isWhitespace then
      if inWs then wsSplitGo true [] rest
      else cur.reverse :: wsSplitGo true [] rest
    else wsSplitGo false (c :: cur) rest

/-- JavaScript `str.split(/\s+/)` on a character list: the maximal
non-whitespace runs, with an empty piece at an end that begins/ends with
whitespace, and `[""]` for the empty string. -/
def jsWsSplit (l : List Char) : List (List Char) := wsSplitGo false [] l

/-- JavaScript `s.toLowerCase()`. -/
def jsToLower (s : String) : String := String.mk (s.data.map Char.toLower)

/-- Strip leading and trailing whitespace from a character list. -/
def chTrim (l : List Char) : List Char :=
  ((l.dropWhile Char.isWhitespace).reverse.dropWhile Char.isWhitespace).reverse

/-- JavaScript `s.trim()`. -/
def jsTrim (s : String) : String := String.mk (chTrim s.data)

/-- Split a character list on every occurrence of `sep` (JavaScript
`str.split(sep)`). -/
def chSplitOn (sep : Char) : List Char → List (List Char)
  | [] => [[]]
  | c :: rest =>
    let r := chSplitOn sep rest
    if c == sep then [] :: r
    else (c :: r.headD []) :: r.tail

/-- JavaScript `str.split(sep)` for a single-character separator. -/
def jsSplitOn (sep : Char) (s : String) : List String :=
  (chSplitOn sep s.data).map String.mk

/-- Remove one leading occurrence of `q` from a character list. -/
def chStripLead (q : Char) : List Char → List Char
  | [] => []
  | c :: rest => if c == q then rest else c :: rest

/-- JavaScript `str.split(/\s+/)` on a string. -/
def jsSplitWsStr (s : String) : List String := (jsWsSplit s.data).map String.mk

/-- JavaScript `str.split(/\s+/).filter(Boolean)`: the non-empty tokens. -/
def jsTokens (s : String) : List String := (jsSplitWsStr s).filter (· != "")

/-- Lookup in a JavaScript object modelled as an association list:
`obj[key]`, `undefined` becoming `none`. -/
def attrsGet (attrs : List (String × String)) (key : String) : Option String :=
  match attrs with
  | [] => none
  | (k, v) :: rest => if k = key then some v else attrsGet rest key

/-! ## Data model (cyfix-plugin types) -/

/-- A serialized DOM element node. -/
inductive DOMNode where
  | mk
    (tagName : String)
    (id : Option String)
    (className : Option String)
    (attributes : List (String × String))
    (textContent : Option String)
    (children : List DOMNode)

def DOMNode.tagName : DOMNode → String
  | .mk t _ _ _ _ _ => t

def DOMNode.id : DOMNode → Option String
  | .mk _ i _ _ _ _ => i

def DOMNode.className : DOMNode → Option String
  | .mk _ _ c _ _ _ => c

def DOMNode.attributes : DOMNode → List (String × String)
  | .mk _ _ _ a _ _ => a

def DOMNode.textContent : DOMNode → Option String
  | .mk _ _ _ _ t _ => t

def DOMNode.children : DOMNode → List DOMNode
  | .mk _ _ _ _ _ c => c

/-- A captured DOM snapshot. -/
structure DOMSnapshot where
  url : String
  title : Option String
  timestamp : Int
  rootNode : DOMNode

/-- The six healing strategies. -/
inductive HealingStrategy where
  | idBased
  | classBased
  | attrBased
  | textBased
  | cssPath
  | xpath
  deriving DecidableEq

/-- Where a healing result came from. -/
inductive HealSource where
  | local
  | server
  deriving DecidableEq

/-- One healing result emitted by the orchestrator. -/
structure HealingResult where
  selector : String
  score : ℚ
  strategy : HealingStrategy
  source : HealSource
  deriving DecidableEq

/-! ## Candidate Finder (finder.ts) -/

/-- A feature of a DOM element used for comparison and matching. -/
structure ElementFeature where
  type : String
  value : String
  weight : ℚ
  deriving DecidableEq

/-- Weight of an attribute for matching (`getAttributeWeight`). -/
def getAttributeWeight (attributeName : String) : ℚ :=
  let n := jsToLower attributeName
  if n = "name" ∨ n = "data-testid" ∨ n = "data-cy" ∨ n = "data-test" then 0.8
  else if n = "href" ∨ n = "src" ∨ n = "alt" ∨ n = "title" ∨ n = "aria-label" then 0.7
  else if n = "type" ∨ n = "role" ∨ n = "placeholder" ∨ n = "value" then 0.6
  else if jsStartsWith attributeName "data-" then 0.5
  else 0.3

/-- `extractFeatures`: id feature, one class feature per class token, a text
feature for truthy text content, and an `name="value"` feature for every
attribute other than id/class. -/
def extractFeatures (element : DOMNode) : List ElementFeature :=
  (if truthy element.id then [⟨"id", element.id.getD "", 1⟩] else []) ++
  (if truthy element.className then
      (jsTokens (element.className.getD "")).map (fun cls => ⟨"class", cls, 0.7⟩)
    else []) ++
  (if truthy element.textContent then
      [⟨"text", element.textContent.getD "", 0.6⟩]
    else []) ++
  (element.attributes.filterMap (fun p =>
    if p.1 = "id" ∨ p.1 = "class" then none
    else some ⟨"attribute", p.1 ++ "=\"" ++ p.2 ++ "\"", getAttributeWeight p.1⟩))

/-- JavaScript `value.replace(/^"|"$/g, '')`: strip one leading and one
trailing double quote. -/
def stripQuotes (s : String) : String :=
  String.mk ((chStripLead '"' ((chStripLead '"' s.data).reverse)).reverse)

/-- Contribution of a single feature to `countFeatureMatches`: the feature's
weight when it matches the node, `0` otherwise.  The `attribute` case
re-parses the encoded `name="value"` string by splitting on every `=`, as
the source does. -/
def featureMatchAmount (node : DOMNode) (feature : ElementFeature) : ℚ :=
  if feature.type = "id" then
    (if node.id = some feature.value then feature.weight else 0)
  else if feature.type = "class" then
    (if truthy node.className &&
        (jsSplitWsStr (node.className.getD "")).contains feature.value then
      feature.weight else 0)
  else if feature.type = "text" then
    (if truthy node.textContent &&
        strContains (node.textContent.getD "") feature.value then
      feature.weight else 0)
  else if feature.type = "attribute" then
    let parts := jsSplitOn '=' feature.value
    let attrName := parts.headD ""
    let attrValue :=
      match parts[1]? with
      | none => ""
      | some v => if v = "" then "" else stripQuotes v
    (if attrsGet node.attributes attrName = some attrValue then feature.weight else 0)
  else 0

/-- `countFeatureMatches`: sum of the weights of the matching features. -/
def countFeatureMatches (node : DOMNode) (features : List ElementFeature) : ℚ :=
  (features.map (featureMatchAmount node)).sum

mutual
/-- Pre-order listing of all nodes of a tree. -/
def preorderN : DOMNode → List DOMNode
  | .mk t i c a x ch => .mk t i c a x ch :: preorderL ch
/-- Pre-order listing of a forest. -/
def preorderL : List DOMNode → List DOMNode
  | [] => []
  | n :: rest => preorderN n ++ preorderL rest
end

/-- Whether a node qualifies as a candidate in `findElementsByFeatures`:
same tag name and a positive feature-match count. -/
def candidatePred (features : List ElementFeature) (tagName : String)
    (n : DOMNode) : Bool :=
  n.tagName == tagName && decide (0 < countFeatureMatches n features)

mutual
/-- The recursive walk of `findElementsByFeatures`, node case. -/
def findElemsN (features : List ElementFeature) (tagName : String) :
    DOMNode → List DOMNode
  | .mk t i c a x ch =>
    (if candidatePred features tagName (.mk t i c a x ch) then
        [DOMNode.mk t i c a x ch] else []) ++
      findElemsL features tagName ch
/-- The recursive walk of `findElementsByFeatures`, forest case. -/
def findElemsL (features : List ElementFeature) (tagName : String) :
    List DOMNode → List DOMNode
  | [] => []
  | n :: rest => findElemsN features tagName n ++ findElemsL features tagName rest
end

/-- `findElementsByFeatures`: all nodes of the tree, in pre-order, whose tag
matches and which match at least one feature. -/
def findElementsByFeatures (rootNode : DOMNode) (features : List ElementFeature)
    (tagName : String) : List DOMNode :=
  findElemsN features tagName rootNode

/-- `findCandidateElements`: extract the baseline element's features and scan
the current tree. -/
def findCandidateElements (baselineElement : DOMNode) (currentRoot : DOMNode) :
    List DOMNode :=
  findElementsByFeatures currentRoot (extractFeatures baselineElement)
    baselineElement.tagName

/-! ## Stable descending sort

JavaScript `array.sort((a, b) => b.k - a.k)` is a stable sort by the key,
descending.  `sortByDesc` is the stable insertion sort realizing it. -/

/-- Insert `x` (which came after every element of `l` in the original list)
into the already-sorted `l`: walk past strictly greater keys, so that among
equal keys `x` lands after earlier elements and before later ones. -/
def insertByDesc (key : α → ℚ) (x : α) : List α → List α
  | [] => [x]
  | y :: ys => if key x < key y then y :: insertByDesc key x ys else x :: y :: ys

/-- Stable sort, descending by `key`. -/
def sortByDesc (key : α → ℚ) : List α → List α
  | [] => []
  | x :: xs => insertByDesc key x (sortByDesc key xs)

/-! ## Similarity Scorer (scorer.ts) -/

/-- A scored candidate element. -/
structure ScoredCandidate where
  element : DOMNode
  score : ℚ
  matchedFeatures : List String

/-- Result of `calculateSimilarityScore`. -/
structure SimilarityResult where
  score : ℚ
  matchedFeatures : List String

/-- `calculateTextSimilarity`: Jaccard similarity of the word sets of the
two texts (lower-cased, trimmed, split on whitespace). -/
def calculateTextSimilarity (text1 text2 : String) : ℚ :=
  let words1 := jsWsSplit (jsTrim (jsToLower text1)).data
  let words2 := jsWsSplit (jsTrim (jsToLower text2)).data
  let set1 := words1.toFinset
  let set2 := words2.toFinset
  let intersectionSize := (set1 ∩ set2).card
  let unionSize := (set1 ∪ set2).card
  if unionSize = 0 then 0 else (intersectionSize : ℚ) / (unionSize : ℚ)

/-- Scorer step 2 (id comparison): `(total increment, max increment,
matched features)`. -/
def idComp (b c : DOMNode) : ℚ × ℚ × List String :=
  match b.id with
  | none => (0, 0, [])
  | some i =>
    if i = "" then (0, 0, [])
    else if c.id = some i then (30, 30, ["id:" ++ i]) else (0, 30, [])

/-- The class-token set of a node as the scorer builds it. -/
def classSet (n : DOMNode) : Finset String :=
  if truthy n.className then (jsTokens (n.className.getD "")).toFinset else ∅

/-- Scorer step 3 (class comparison). -/
def classComp (b c : DOMNode) : ℚ × ℚ × List String :=
  let baselineClasses := classSet b
  let candidateClasses := classSet c
  if 0 < baselineClasses.card then
    ((((baselineClasses ∩ candidateClasses).card : ℚ) /
        (baselineClasses.card : ℚ)) * 20,
     20,
     ((jsTokens (b.className.getD "")).dedup.filter
        (fun cls => cls ∈ candidateClasses)).map (fun cls => "class:" ++ cls))
  else (0, 0, [])

/-- Scorer step 4 (text comparison). -/
def textComp (b c : DOMNode) : ℚ × ℚ × List String :=
  if truthy b.textContent then
    let inner : ℚ × List String :=
      if truthy c.textContent then
        let textSimilarity :=
          calculateTextSimilarity (b.textContent.getD "") (c.textContent.getD "")
        if textSimilarity > 0.8 then (15 * textSimilarity, ["text:similar"])
        else if textSimilarity > 0.5 then (10 * textSimilarity, ["text:partial"])
        else (0, [])
      else (0, [])
    (inner.1, 15, inner.2)
  else (0, 0, [])

/-- The fixed list of important attributes of the scorer. -/
def importantAttrs : List String :=
  ["name", "data-testid", "data-cy", "data-test", "href", "src",
   "alt", "title", "aria-label", "type", "role", "placeholder", "value"]

/-- One iteration of scorer step 5: the contribution of one important
attribute name. -/
def impStep (b c : DOMNode) (attr : String) : ℚ × ℚ × List String :=
  match attrsGet b.attributes attr with
  | none => (0, 0, [])
  | some v =>
    if v = "" then (0, 0, [])
    else if attrsGet c.attributes attr = some v then (10, 10, ["attr:" ++ attr])
    else (0, 10, [])

/-- Scorer step 5 (important attributes), iterating over a name list. -/
def impComp (b c : DOMNode) : List String → ℚ × ℚ × List String
  | [] => (0, 0, [])
  | attr :: rest =>
    let h := impStep b c attr
    let r := impComp b c rest
    (h.1 + r.1, h.2.1 + r.2.1, h.2.2 ++ r.2.2)

/-- One iteration of scorer step 5': the contribution of one baseline
attribute entry outside the important set. -/
def otherStep (b c : DOMNode) (p : String × String) : ℚ × ℚ × List String :=
  if importantAttrs.contains p.1 || p.1 == "id" || p.1 == "class" then (0, 0, [])
  else if attrsGet c.attributes p.1 = some p.2 then (5, 5, ["attr:" ++ p.1])
  else (0, 5, [])

/-- Scorer step 5' (all remaining attributes of the baseline). -/
def otherComp (b c : DOMNode) : List (String × String) → ℚ × ℚ × List String
  | [] => (0, 0, [])
  | p :: rest =>
    let h := otherStep b c p
    let r := otherComp b c rest
    (h.1 + r.1, h.2.1 + r.2.1, h.2.2 ++ r.2.2)

/-- Scorer step 6 (structure: similar child counts). -/
def structComp (b c : DOMNode) : ℚ × ℚ × List String :=
  if ((b.children.length : ℤ) - (c.children.length : ℤ)).natAbs ≤ 2 then
    (5, 10, ["structure:similar-children-count"])
  else (0, 10, [])

/-- The accumulated `totalScore` of the scorer, for equal tag names. -/
def simTotal (b c : DOMNode) : ℚ :=
  10 + (idComp b c).1 + (classComp b c).1 + (textComp b c).1 +
    (impComp b c importantAttrs).1 + (otherComp b c b.attributes).1 +
    (structComp b c).1

/-- The accumulated `maxPossibleScore` of the scorer, for equal tag names. -/
def simMax (b c : DOMNode) : ℚ :=
  10 + (idComp b c).2.1 + (classComp b c).2.1 + (textComp b c).2.1 +
    (impComp b c importantAttrs).2.1 + (otherComp b c b.attributes).2.1 +
    (structComp b c).2.1

/-- `calculateSimilarityScore`: `0` with no matched features when the tag
names differ, otherwise `total / maxPossible` (guarded against a zero
denominator) with the accumulated matched features. -/
def calculateSimilarityScore (b c : DOMNode) : SimilarityResult :=
  if b.tagName ≠ c.tagName then ⟨0, []⟩
  else
    ⟨if 0 < simMax b c then simTotal b c / simMax b c else 0,
     ("tag:" ++ b.tagName) ::
       ((idComp b c).2.2 ++ (classComp b c).2.2 ++ (textComp b c).2.2 ++
        (impComp b c importantAttrs).2.2 ++ (otherComp b c b.attributes).2.2 ++
        (structComp b c).2.2)⟩

/-- `scoreElements`: score every candidate and sort descending by score. -/
def scoreElements (baselineElement : DOMNode) (candidateElements : List DOMNode) :
    List ScoredCandidate :=
  sortByDesc (fun sc => sc.score)
    (candidateElements.map (fun element =>
      ⟨element, (calculateSimilarityScore baselineElement element).score,
        (calculateSimilarityScore baselineElement element).matchedFeatures⟩))

/-! ## Locator Synthesizer (generator.ts) -/

/-- A generated selector. -/
structure GeneratedSelector where
  value : String
  strategy : HealingStrategy
  specificity : ℚ
  deriving DecidableEq

/-- `isGoodSelectorAttribute`: allow-list plus any `data-` prefixed name. -/
def isGoodSelectorAttribute (attributeName : String) : Bool :=
  ["name", "data-testid", "data-cy", "data-test", "data-automation",
   "aria-label", "role", "title", "alt", "href", "src", "type",
   "placeholder", "value", "for"].contains attributeName ||
  jsStartsWith attributeName "data-"

/-- `isCommonClass`: deny-list of class tokens too common to be useful. -/
def isCommonClass (className : String) : Bool :=
  ["active", "disabled", "selected", "hidden", "visible",
   "container", "wrapper", "row", "col", "item",
   "btn", "button", "input", "form", "header", "footer",
   "content", "panel", "card", "modal", "dialog",
   "text", "title", "label", "icon", "image",
   "large", "small", "medium", "primary", "secondary",
   "success", "error", "warning", "info"].contains (jsToLower className)

/-- `estimateSelectorSpecificity`: the string-pattern heuristic; first
matching rule wins. -/
def estimateSelectorSpecificity (selector : String) (rootNode : DOMNode) : ℚ :=
  if jsStartsWith selector "#" then 1.0
  else if strContains selector "[data-testid=" || strContains selector "[data-cy=" then 0.95
  else if strContains selector "[data-" then 0.9
  else if strContains selector "[name=" || strContains selector "[role=" then 0.85
  else if jsStartsWith selector "//" then 0.8
  else if strContains selector "." && strContains selector "[" then 0.85
  else if strContains selector ":contains(" then 0.75
  else if strContains selector "." &&
      1 < (selector.data.filter (fun ch => ch == '.')).length then 0.8
  else if strContains selector "[" && strContains selector "=" then 0.75
  else if strContains selector " > " then 0.7
  else if strContains selector " " then 0.65
  else if strContains selector "." then 0.6
  else 0.5

/-- `generateCssPath`: tag name plus id, else first class token, else a fixed
child-position placeholder. -/
def generateCssPath (element : DOMNode) (rootNode : DOMNode) : String :=
  let selector := element.tagName
  if truthy element.id then selector ++ "#" ++ element.id.getD ""
  else if truthy element.className then
    let classes := jsTokens (element.className.getD "")
    match classes with
    | bestClass :: _ => selector ++ "." ++ bestClass
    | [] => selector ++ ":nth-child(2)"
  else selector ++ ":nth-child(2)"

/-- `generateXPath`: `//tag` plus an id predicate, else a class predicate,
else a text predicate. -/
def generateXPath (element : DOMNode) (rootNode : DOMNode) : String :=
  let xpath := "//" ++ element.tagName
  if truthy element.id then xpath ++ "[@id=\"" ++ element.id.getD "" ++ "\"]"
  else if truthy element.className then
    match jsTokens (element.className.getD "") with
    | c0 :: _ => xpath ++ "[contains(@class, \"" ++ c0 ++ "\")]"
    | [] => xpath
  else
    match element.textContent with
    | none => xpath
    | some tc =>
      if tc = "" then xpath
      else
        let text := jsTrim tc
        if text.length < 30 then xpath ++ "[text()=\"" ++ text ++ "\"]"
        else xpath ++ "[contains(text(), \"" ++ text.take 30 ++ "\")]"

/-- The list of selectors `generateSelectors` accumulates before
deduplication and sorting, in emission order. -/
def rawSelectors (element : DOMNode) (rootNode : DOMNode) : List GeneratedSelector :=
  (if truthy element.id then
      [⟨"#" ++ element.id.getD "", .idBased, 1.0⟩]
    else []) ++
  (if truthy element.className then
      match jsTokens (element.className.getD "") with
      | [] => []
      | classes@(_ :: _) =>
        let combinedClassSelector := "." ++ String.intercalate "." classes
        ⟨combinedClassSelector, .classBased,
          estimateSelectorSpecificity combinedClassSelector rootNode⟩ ::
        (if 1 < classes.length then
            classes.filterMap (fun cls =>
              if isCommonClass cls then none
              else
                let specificity :=
                  estimateSelectorSpecificity ("." ++ cls) rootNode
                if specificity > 0.5 then
                  some ⟨"." ++ cls, .classBased, specificity⟩
                else none)
          else [])
    else []) ++
  (element.attributes.filterMap (fun p =>
    if p.1 = "id" ∨ p.1 = "class" then none
    else if isGoodSelectorAttribute p.1 then
      let attributeSelector := "[" ++ p.1 ++ "=\"" ++ p.2 ++ "\"]"
      let specificity := estimateSelectorSpecificity attributeSelector rootNode
      if specificity > 0.7 then some ⟨attributeSelector, .attrBased, specificity⟩
      else none
    else none)) ++
  (element.attributes.filterMap (fun p =>
    if p.1 = "id" ∨ p.1 = "class" then none
    else if isGoodSelectorAttribute p.1 then
      let tagAttributeSelector :=
        element.tagName ++ "[" ++ p.1 ++ "=\"" ++ p.2 ++ "\"]"
      let specificity := estimateSelectorSpecificity tagAttributeSelector rootNode
      if specificity > 0.8 then
        some ⟨tagAttributeSelector, .attrBased, specificity⟩
      else none
    else none)) ++
  (if truthy element.className then
      match jsTokens (element.className.getD "") with
      | [] => []
      | c0 :: cs =>
        let best := (c0 :: cs).foldl
          (fun (acc : String × ℚ) cls =>
            let specificity := estimateSelectorSpecificity ("." ++ cls) rootNode
            if specificity > acc.2 then (cls, specificity) else acc)
          (c0, 0)
        let tagClassSelector := element.tagName ++ "." ++ best.1
        [⟨tagClassSelector, .classBased,
          estimateSelectorSpecificity tagClassSelector rootNode⟩]
    else []) ++
  (match element.textContent with
   | none => []
   | some tc =>
     if tc ≠ "" ∧ 0 < tc.length ∧ tc.length < 100 then
       let text := jsTrim tc
       if text.length < 30 then
         let textSelector := element.tagName ++ ":contains(\"" ++ text ++ "\")"
         [⟨textSelector, .textBased,
           estimateSelectorSpecificity textSelector rootNode * 0.9⟩]
       else
         let textSelector :=
           element.tagName ++ ":contains(\"" ++ text.take 30 ++ "\")"
         [⟨textSelector, .textBased,
           estimateSelectorSpecificity textSelector rootNode * 0.8⟩]
     else []) ++
  [⟨generateCssPath element rootNode, .cssPath, 0.7⟩] ++
  [⟨generateXPath element rootNode, .xpath, 0.6⟩]

/-- Find an entry of the dedup map (JavaScript `Map.get`). -/
def mapFind (m : List (String × GeneratedSelector)) (k : String) :
    Option GeneratedSelector :=
  match m with
  | [] => none
  | (k0, v) :: rest => if k0 = k then some v else mapFind rest k

/-- Set an entry of the dedup map (JavaScript `Map.set`): replace in place
when the key exists, append otherwise. -/
def mapSet (m : List (String × GeneratedSelector)) (k : String)
    (v : GeneratedSelector) : List (String × GeneratedSelector) :=
  match m with
  | [] => [(k, v)]
  | (k0, v0) :: rest =>
    if k0 = k then (k0, v) :: rest else (k0, v0) :: mapSet rest k v

/-- The fold of `removeDuplicateSelectors` over the selector list. -/
def dedupFold (m : List (String × GeneratedSelector)) :
    List GeneratedSelector → List (String × GeneratedSelector)
  | [] => m
  | s :: rest =>
    let keep :=
      match mapFind m s.value with
      | none => true
      | some existing => decide (existing.specificity < s.specificity)
    dedupFold (if keep then mapSet m s.value s else m) rest

/-- `removeDuplicateSelectors`: keep, per distinct value, the
highest-specificity selector, in first-insertion key order. -/
def removeDuplicateSelectors (selectors : List GeneratedSelector) :
    List GeneratedSelector :=
  (dedupFold [] selectors).map (fun p => p.2)

/-- `generateSelectors`: generate, deduplicate, and sort descending by
specificity. -/
def generateSelectors (element : DOMNode) (rootNode : DOMNode) :
    List GeneratedSelector :=
  sortByDesc (fun s => s.specificity)
    (removeDuplicateSelectors (rawSelectors element rootNode))

/-! ## Healing Orchestrator (core entry point) -/

mutual
/-- `findElementById`: first node in pre-order with the given id. -/
def findElementById : DOMNode → String → Option DOMNode
  | .mk t i c a x ch, id =>
    if i = some id then some (.mk t i c a x ch)
    else findElementByIdL ch id
/-- `findElementById` over a forest. -/
def findElementByIdL : List DOMNode → String → Option DOMNode
  | [], _ => none
  | n :: rest, id =>
    match findElementById n id with
    | some found => some found
    | none => findElementByIdL rest id
end

/-- `findElementBySelector`: only `#id` selectors are resolved; everything
else yields `none`. -/
def findElementBySelector (rootNode : DOMNode) (selector : String) :
    Option DOMNode :=
  if jsStartsWith selector "#" then findElementById rootNode (selector.drop 1)
  else none

/-- `healSelector`: resolve the baseline element, find candidates, score
them, drop candidates scoring below `0.3`, synthesize selectors for the
survivors, and sort all emitted results descending by score. -/
def healSelector (originalSelector : String) (baseline current : DOMSnapshot) :
    List HealingResult :=
  match findElementBySelector baseline.rootNode originalSelector with
  | none => []
  | some baselineElement =>
    let candidateElements := findCandidateElements baselineElement current.rootNode
    if candidateElements.length = 0 then []
    else
      let scoredCandidates := scoreElements baselineElement candidateElements
      let results :=
        (scoredCandidates.filter (fun c => !decide (c.score < 0.3))).flatMap
          (fun c =>
            (generateSelectors c.element current.rootNode).map
              (fun s =>
                { selector := s.value
                  score := c.score * s.specificity
                  strategy := s.strategy
                  source := HealSource.local }))
      sortByDesc (fun r => r.score) results

/-! ## Lemmas about the stable descending sort -/

theorem insertByDesc_perm (key : α → ℚ) (x : α) (l : List α) :
    List.Perm (insertByDesc key x l) (x :: l) := by
  induction l with
  | nil => simp [insertByDesc]
  | cons y ys ih =>
    by_cases h : key x < key y
    · simp only [insertByDesc, h, if_true]
      exact (ih.cons y).trans (List.Perm.swap x y ys)
    · simp [insertByDesc, h]

theorem sortByDesc_perm (key : α → ℚ) (l : List α) :
    List.Perm (sortByDesc key l) l := by
  induction l with
  | nil => simp [sortByDesc]
  | cons x xs ih =>
    exact (insertByDesc_perm key x (sortByDesc key xs)).trans (ih.cons x)

theorem mem_sortByDesc (key : α → ℚ) (l : List α) (a : α) :
    a ∈ sortByDesc key l ↔ a ∈ l :=
  (sortByDesc_perm key l).mem_iff

theorem mem_insertByDesc (key : α → ℚ) (x : α) (l : List α) (a : α) :
    a ∈ insertByDesc key x l ↔ a = x ∨ a ∈ l := by
  rw [(insertByDesc_perm key x l).mem_iff, List.mem_cons]

theorem sortByDesc_ne_nil (key : α → ℚ) (l : List α) (hl : l ≠ []) :
    sortByDesc key l ≠ [] := by
  intro hcon
  have hp := sortByDesc_perm key l
  rw [hcon] at hp
  exact hl hp.symm.eq_nil

theorem insertByDesc_sorted (key : α → ℚ) (x : α) (l : List α)
    (hs : List.Sorted (fun a b => key b ≤ key a) l) :
    List.Sorted (fun a b => key b ≤ key a) (insertByDesc key x l) := by
  induction l with
  | nil => simp [insertByDesc]
  | cons y ys ih =>
    rw [List.sorted_cons] at hs
    by_cases h : key x < key y
    · simp only [insertByDesc, h, if_true]
      rw [List.sorted_cons]
      refine ⟨?_, ih hs.2⟩
      intro b hb
      rcases (mem_insertByDesc key x ys b).1 hb with rfl | hb'
      · exact le_of_lt h
      · exact hs.1 b hb'
    · simp only [insertByDesc, h, if_false]
      rw [List.sorted_cons]
      constructor
      · intro b hb
        rcases List.mem_cons.1 hb with rfl | hb'
        · exact not_lt.1 h
        · exact le_trans (hs.1 b hb') (not_lt.1 h)
      · rw [List.sorted_cons]
        exact hs

theorem sortByDesc_sorted (key : α → ℚ) (l : List α) :
    List.Sorted (fun a b => key b ≤ key a) (sortByDesc key l) := by
  induction l with
  | nil => simp [sortByDesc]
  | cons x xs ih => exact insertByDesc_sorted key x (sortByDesc key xs) ih

/-- The head of the sorted list is the first element of the original list
attaining the maximal key: everything before it is strictly smaller. -/
theorem sortByDesc_head_decomp (key : α → ℚ) (l : List α) (h : α) (t : List α)
    (he : sortByDesc key l = h :: t) :
    ∃ l₁ l₂, l = l₁ ++ h :: l₂ ∧ ∀ a ∈ l₁, key a < key h := by
  induction l generalizing h t with
  | nil => simp [sortByDesc] at he
  | cons x xs ih =>
    rw [sortByDesc] at he
    rcases hs : sortByDesc key xs with _ | ⟨h', t'⟩
    · rw [hs] at he
      simp only [insertByDesc] at he
      have hxh : x = h := by
        have := congrArg List.head? he
        simpa using this
      subst hxh
      exact ⟨[], xs, by simp, by simp⟩
    · rw [hs] at he
      rw [insertByDesc] at he
      by_cases hlt : key x < key h'
      · rw [if_pos hlt] at he
        have h1 : h' = h := by
          have := congrArg List.head? he
          simpa using this
        obtain ⟨l₁, l₂, hxs, hlts⟩ := ih h' t' hs
        subst h1
        refine ⟨x :: l₁, l₂, ?_, ?_⟩
        · rw [hxs, List.cons_append]
        · intro a ha
          rcases List.mem_cons.1 ha with rfl | ha'
          · exact hlt
          · exact hlts a ha'
      · rw [if_neg hlt] at he
        have h1 : x = h := by
          have := congrArg List.head? he
          simpa using this
        subst h1
        exact ⟨[], xs, by simp, by simp⟩

/-- The head of the sorted list has the maximal key among all elements. -/
theorem sortByDesc_head_max (key : α → ℚ) (l : List α) (h : α) (t : List α)
    (he : sortByDesc key l = h :: t) : ∀ a ∈ l, key a ≤ key h := by
  intro a ha
  have hmem : a ∈ sortByDesc key l := (mem_sortByDesc key l a).2 ha
  rw [he] at hmem
  rcases List.mem_cons.1 hmem with rfl | ha'
  · exact le_refl _
  · have hsorted := sortByDesc_sorted key l
    rw [he, List.sorted_cons] at hsorted
    exact hsorted.1 a ha'

/-- If the first element of the list already attains the maximal key, it is
also the head of the sorted list. -/
theorem sortByDesc_cons_of_max (key : α → ℚ) (x : α) (xs : List α)
    (hmax : ∀ a ∈ x :: xs, key a ≤ key x) :
    ∃ t, sortByDesc key (x :: xs) = x :: t := by
  have hne := sortByDesc_ne_nil key (x :: xs) (by simp)
  obtain ⟨h, t, he⟩ : ∃ h t, sortByDesc key (x :: xs) = h :: t := by
    rcases hsort : sortByDesc key (x :: xs) with _ | ⟨a, b⟩
    · exact absurd hsort hne
    · exact ⟨a, b, rfl⟩
  obtain ⟨l₁, l₂, hdec, hstrict⟩ := sortByDesc_head_decomp key (x :: xs) h t he
  have hhx : key h ≤ key x := by
    refine hmax h ((mem_sortByDesc key (x :: xs) h).1 ?_)
    rw [he]
    exact List.mem_cons_self _ _
  rcases l₁ with _ | ⟨y, l₁'⟩
  · have hxh : x = h := by
      have := congrArg List.head? hdec
      simpa using this
    exact ⟨t, by rw [he, hxh]⟩
  · exfalso
    have hxy : x = y := by
      have := congrArg List.head? hdec
      simpa using this
    have hxmem : x ∈ y :: l₁' := by
      rw [hxy]
      exact List.mem_cons_self _ _
    exact absurd hhx (not_le.2 (hstrict x hxmem))

/-! ## Lemmas about the tree walks -/

mutual
theorem findElemsN_eq (f : List ElementFeature) (tg : String) (n : DOMNode) :
    findElemsN f tg n = (preorderN n).filter (candidatePred f tg) := by
  cases n with
  | mk t i c a x ch =>
    rw [findElemsN, preorderN, List.filter_cons, findElemsL_eq f tg ch]
    by_cases hp : candidatePred f tg (.mk t i c a x ch) = true
    · simp [hp]
    · simp [hp]

theorem findElemsL_eq (f : List ElementFeature) (tg : String) (l : List DOMNode) :
    findElemsL f tg l = (preorderL l).filter (candidatePred f tg) := by
  cases l with
  | nil => simp [findElemsL, preorderL]
  | cons n rest =>
    rw [findElemsL, preorderL, List.filter_append, findElemsN_eq f tg n,
      findElemsL_eq f tg rest]
end

mutual
theorem findById_mem_id (n : DOMNode) (idStr : String) (m : DOMNode)
    (h : findElementById n idStr = some m) :
    m ∈ preorderN n ∧ m.id = some idStr := by
  cases n with
  | mk t i c a x ch =>
    rw [findElementById] at h
    by_cases hi : i = some idStr
    · rw [if_pos hi] at h
      obtain rfl := Option.some.inj h
      exact ⟨by rw [preorderN]; exact List.mem_cons_self _ _, hi⟩
    · rw [if_neg hi] at h
      obtain ⟨hm, hid⟩ := findByIdL_mem_id ch idStr m h
      exact ⟨by rw [preorderN]; exact List.mem_cons_of_mem _ hm, hid⟩

theorem findByIdL_mem_id (l : List DOMNode) (idStr : String) (m : DOMNode)
    (h : findElementByIdL l idStr = some m) :
    m ∈ preorderL l ∧ m.id = some idStr := by
  cases l with
  | nil => simp [findElementByIdL] at h
  | cons n rest =>
    rw [findElementByIdL] at h
    rcases hf : findElementById n idStr with _ | found
    · rw [hf] at h
      obtain ⟨hm, hid⟩ := findByIdL_mem_id rest idStr m h
      exact ⟨by rw [preorderL]; exact List.mem_append_right _ hm, hid⟩
    · rw [hf] at h
      obtain rfl := Option.some.inj h
      obtain ⟨hm, hid⟩ := findById_mem_id n idStr found hf
      exact ⟨by rw [preorderL]; exact List.mem_append_left _ hm, hid⟩
end

mutual
theorem findById_isSome (n : DOMNode) (idStr : String)
    (hm : ∃ m ∈ preorderN n, m.id = some idStr) :
    (findElementById n idStr).isSome := by
  cases n with
  | mk t i c a x ch =>
    rw [findElementById]
    by_cases hi : i = some idStr
    · rw [if_pos hi]
      rfl
    · rw [if_neg hi]
      obtain ⟨m, hmem, hid⟩ := hm
      rw [preorderN] at hmem
      rcases List.mem_cons.1 hmem with rfl | hmem'
      · exact absurd hid hi
      · exact findByIdL_isSome ch idStr ⟨m, hmem', hid⟩

theorem findByIdL_isSome (l : List DOMNode) (idStr : String)
    (hm : ∃ m ∈ preorderL l, m.id = some idStr) :
    (findElementByIdL l idStr).isSome := by
  cases l with
  | nil =>
    obtain ⟨m, hmem, -⟩ := hm
    rw [preorderL] at hmem
    exact absurd hmem (List.not_mem_nil m)
  | cons n rest =>
    rw [findElementByIdL]
    rcases hf : findElementById n idStr with _ | found
    · obtain ⟨m, hmem, hid⟩ := hm
      rw [preorderL] at hmem
      rcases List.mem_append.1 hmem with hmem' | hmem'
      · have := findById_isSome n idStr ⟨m, hmem', hid⟩
        rw [hf] at this
        exact absurd this (by simp)
      · exact findByIdL_isSome rest idStr ⟨m, hmem', hid⟩
    · rfl
end

/-! ## Lemmas about attribute lookup -/

theorem attrsGet_mem (attrs : List (String × String)) (k : String) (v : String)
    (hnd : (attrs.map Prod.fst).Nodup) (hmem : (k, v) ∈ attrs) :
    attrsGet attrs k = some v := by
  induction attrs with
  | nil => exact absurd hmem (List.not_mem_nil _)
  | cons p rest ih =>
    obtain ⟨k0, v0⟩ := p
    rw [List.map_cons, List.nodup_cons] at hnd
    rcases List.mem_cons.1 hmem with heq | hmem'
    · obtain ⟨rfl, rfl⟩ := Prod.mk.injEq .. ▸ heq
      simp [attrsGet]
    · rw [attrsGet]
      have hne : k0 ≠ k := by
        intro h0
        subst h0
        exact hnd.1 (List.mem_map.2 ⟨(k0, v), hmem', rfl⟩)
      rw [if_neg hne]
      exact ih hnd.2 hmem'

/-! ## Lemmas about the similarity scorer -/

theorem wsSplitGo_ne_nil (l : List Char) :
    ∀ inWs cur, wsSplitGo inWs cur l ≠ [] := by
  induction l with
  | nil =>
    intro inWs cur
    simp [wsSplitGo]
  | cons c rest ih =>
    intro inWs cur
    rw [wsSplitGo]
    split_ifs
    · exact ih true []
    · simp
    · exact ih false (c :: cur)

theorem jsWsSplit_ne_nil (l : List Char) : jsWsSplit l ≠ [] :=
  wsSplitGo_ne_nil l false []

theorem calculateTextSimilarity_nonneg (t1 t2 : String) :
    0 ≤ calculateTextSimilarity t1 t2 := by
  simp only [calculateTextSimilarity]
  split
  · exact le_refl 0
  · positivity

theorem calculateTextSimilarity_le_one (t1 t2 : String) :
    calculateTextSimilarity t1 t2 ≤ 1 := by
  simp only [calculateTextSimilarity]
  split
  · norm_num
  · rename_i hne
    rw [div_le_one (by positivity)]
    exact_mod_cast Finset.card_le_card (Finset.inter_subset_union)

theorem calculateTextSimilarity_self (t : String) :
    calculateTextSimilarity t t = 1 := by
  simp only [calculateTextSimilarity, Finset.inter_self, Finset.union_self]
  have hne : ((jsWsSplit (jsTrim (jsToLower t)).data).toFinset).card ≠ 0 := by
    rw [Finset.card_ne_zero]
    obtain ⟨w, hw⟩ :=
      List.exists_mem_of_ne_nil _ (jsWsSplit_ne_nil (jsTrim (jsToLower t)).data)
    exact ⟨w, List.mem_toFinset.2 hw⟩
  rw [if_neg hne, div_self (by exact_mod_cast hne)]

theorem idComp_fst_nonneg (b c : DOMNode) : 0 ≤ (idComp b c).1 := by
  unfold idComp
  rcases b.id with _ | i <;> simp
  split_ifs <;> norm_num

theorem idComp_fst_le (b c : DOMNode) : (idComp b c).1 ≤ (idComp b c).2.1 := by
  unfold idComp
  rcases b.id with _ | i <;> simp
  split_ifs <;> norm_num

theorem idComp_snd_nonneg (b c : DOMNode) : 0 ≤ (idComp b c).2.1 := by
  unfold idComp
  rcases b.id with _ | i <;> simp
  split_ifs <;> norm_num

theorem idComp_snd_eq (b c : DOMNode) : (idComp b c).2.1 = (idComp b b).2.1 := by
  unfold idComp
  rcases b.id with _ | i <;> simp
  split_ifs <;> norm_num

theorem idComp_self (b : DOMNode) : (idComp b b).1 = (idComp b b).2.1 := by
  unfold idComp
  rcases h : b.id with _ | i <;> simp
  split_ifs with h1 h2 <;> simp_all

theorem idComp_of_ne (b c : DOMNode) (i : String) (hb : b.id = some i)
    (hi : i ≠ "") (hc : c.id ≠ some i) :
    (idComp b c).1 = 0 ∧ (idComp b c).2.1 = 30 := by
  unfold idComp
  rw [hb]
  simp [hi, hc]

theorem idComp_snd_of_id (b c : DOMNode) (i : String) (hb : b.id = some i)
    (hi : i ≠ "") : (idComp b c).2.1 = 30 := by
  unfold idComp
  rw [hb]
  simp only [hi, if_false]
  split_ifs <;> norm_num

theorem classComp_fst_nonneg (b c : DOMNode) : 0 ≤ (classComp b c).1 := by
  simp only [classComp]
  split
  · positivity
  · exact le_refl 0

theorem classComp_fst_le (b c : DOMNode) :
    (classComp b c).1 ≤ (classComp b c).2.1 := by
  simp only [classComp]
  split
  · rename_i hpos
    have hle : ((classSet b ∩ classSet c).card : ℚ) / ((classSet b).card : ℚ) ≤ 1 := by
      rw [div_le_one (by exact_mod_cast hpos)]
      exact_mod_cast Finset.card_le_card (Finset.inter_subset_left)
    nlinarith
  · exact le_refl 0

theorem classComp_snd_nonneg (b c : DOMNode) : 0 ≤ (classComp b c).2.1 := by
  simp only [classComp]
  split <;> norm_num

theorem classComp_snd_eq (b c : DOMNode) :
    (classComp b c).2.1 = (classComp b b).2.1 := by
  simp only [classComp]
  split <;> rfl

theorem classComp_self (b : DOMNode) : (classComp b b).1 = (classComp b b).2.1 := by
  simp only [classComp, Finset.inter_self]
  split
  · rename_i hpos
    show ((classSet b).card : ℚ) / ((classSet b).card : ℚ) * 20 = 20
    rw [div_self (by exact_mod_cast hpos.ne')]
    norm_num
  · rfl

theorem textComp_fst_nonneg (b c : DOMNode) : 0 ≤ (textComp b c).1 := by
  have hsim := calculateTextSimilarity_nonneg (b.textContent.getD "") (c.textContent.getD "")
  simp only [textComp]
  split
  · split
    · split_ifs <;> (try dsimp only) <;> linarith
    · exact le_refl 0
  · exact le_refl 0

theorem textComp_fst_le (b c : DOMNode) : (textComp b c).1 ≤ (textComp b c).2.1 := by
  have h0 := calculateTextSimilarity_nonneg (b.textContent.getD "") (c.textContent.getD "")
  have h1 := calculateTextSimilarity_le_one (b.textContent.getD "") (c.textContent.getD "")
  simp only [textComp]
  split
  · split
    · split_ifs <;> (try dsimp only) <;> linarith
    · norm_num
  · exact le_refl 0

theorem textComp_snd_nonneg (b c : DOMNode) : 0 ≤ (textComp b c).2.1 := by
  simp only [textComp]
  split <;> norm_num

theorem textComp_snd_eq (b c : DOMNode) : (textComp b c).2.1 = (textComp b b).2.1 := by
  simp only [textComp]
  split <;> rfl

theorem textComp_self (b : DOMNode) : (textComp b b).1 = (textComp b b).2.1 := by
  simp only [textComp]
  split
  · rename_i ht
    rw [calculateTextSimilarity_self]
    norm_num
  · rfl

theorem impStep_fst_nonneg (b c : DOMNode) (attr : String) :
    0 ≤ (impStep b c attr).1 := by
  cases h : attrsGet b.attributes attr with
  | none => simp [impStep, h]
  | some v =>
    simp only [impStep, h]
    split_ifs <;> norm_num

theorem impStep_fst_le (b c : DOMNode) (attr : String) :
    (impStep b c attr).1 ≤ (impStep b c attr).2.1 := by
  cases h : attrsGet b.attributes attr with
  | none => simp [impStep, h]
  | some v =>
    simp only [impStep, h]
    split_ifs <;> norm_num

theorem impStep_snd_nonneg (b c : DOMNode) (attr : String) :
    0 ≤ (impStep b c attr).2.1 := by
  cases h : attrsGet b.attributes attr with
  | none => simp [impStep, h]
  | some v =>
    simp only [impStep, h]
    split_ifs <;> norm_num

theorem impStep_snd_eq (b c : DOMNode) (attr : String) :
    (impStep b c attr).2.1 = (impStep b b attr).2.1 := by
  cases h : attrsGet b.attributes attr with
  | none => simp [impStep, h]
  | some v =>
    simp only [impStep, h]
    split_ifs <;> norm_num

theorem impStep_self (b : DOMNode) (attr : String) :
    (impStep b b attr).1 = (impStep b b attr).2.1 := by
  cases h : attrsGet b.attributes attr with
  | none => simp [impStep, h]
  | some v =>
    simp only [impStep, h]
    split_ifs <;> rfl

theorem impComp_fst_nonneg (b c : DOMNode) (l : List String) :
    0 ≤ (impComp b c l).1 := by
  induction l with
  | nil => simp [impComp]
  | cons attr rest ih =>
    have := impStep_fst_nonneg b c attr
    simp only [impComp]
    linarith

theorem impComp_fst_le (b c : DOMNode) (l : List String) :
    (impComp b c l).1 ≤ (impComp b c l).2.1 := by
  induction l with
  | nil => simp [impComp]
  | cons attr rest ih =>
    have := impStep_fst_le b c attr
    simp only [impComp]
    linarith

theorem impComp_snd_nonneg (b c : DOMNode) (l : List String) :
    0 ≤ (impComp b c l).2.1 := by
  induction l with
  | nil => simp [impComp]
  | cons attr rest ih =>
    have := impStep_snd_nonneg b c attr
    simp only [impComp]
    linarith

theorem impComp_snd_eq (b c : DOMNode) (l : List String) :
    (impComp b c l).2.1 = (impComp b b l).2.1 := by
  induction l with
  | nil => simp [impComp]
  | cons attr rest ih =>
    have := impStep_snd_eq b c attr
    simp only [impComp]
    linarith

theorem impComp_self (b : DOMNode) (l : List String) :
    (impComp b b l).1 = (impComp b b l).2.1 := by
  induction l with
  | nil => simp [impComp]
  | cons attr rest ih =>
    have := impStep_self b attr
    simp only [impComp]
    linarith

theorem otherStep_fst_nonneg (b c : DOMNode) (p : String × String) :
    0 ≤ (otherStep b c p).1 := by
  unfold otherStep
  split_ifs <;> norm_num

theorem otherStep_fst_le (b c : DOMNode) (p : String × String) :
    (otherStep b c p).1 ≤ (otherStep b c p).2.1 := by
  unfold otherStep
  split_ifs <;> norm_num

theorem otherStep_snd_nonneg (b c : DOMNode) (p : String × String) :
    0 ≤ (otherStep b c p).2.1 := by
  unfold otherStep
  split_ifs <;> norm_num

theorem otherStep_snd_eq (b c : DOMNode) (p : String × String) :
    (otherStep b c p).2.1 = (otherStep b b p).2.1 := by
  unfold otherStep
  split_ifs <;> norm_num

theorem otherStep_self (b : DOMNode) (p : String × String)
    (hp : attrsGet b.attributes p.1 = some p.2) :
    (otherStep b b p).1 = (otherStep b b p).2.1 := by
  unfold otherStep
  split_ifs <;> first | rfl | exact absurd hp (by assumption)

theorem otherComp_fst_nonneg (b c : DOMNode) (l : List (String × String)) :
    0 ≤ (otherComp b c l).1 := by
  induction l with
  | nil => simp [otherComp]
  | cons p rest ih =>
    have := otherStep_fst_nonneg b c p
    simp only [otherComp]
    linarith

theorem otherComp_fst_le (b c : DOMNode) (l : List (String × String)) :
    (otherComp b c l).1 ≤ (otherComp b c l).2.1 := by
  induction l with
  | nil => simp [otherComp]
  | cons p rest ih =>
    have := otherStep_fst_le b c p
    simp only [otherComp]
    linarith

theorem otherComp_snd_nonneg (b c : DOMNode) (l : List (String × String)) :
    0 ≤ (otherComp b c l).2.1 := by
  induction l with
  | nil => simp [otherComp]
  | cons p rest ih =>
    have := otherStep_snd_nonneg b c p
    simp only [otherComp]
    linarith

theorem otherComp_snd_eq (b c : DOMNode) (l : List (String × String)) :
    (otherComp b c l).2.1 = (otherComp b b l).2.1 := by
  induction l with
  | nil => simp [otherComp]
  | cons p rest ih =>
    have := otherStep_snd_eq b c p
    simp only [otherComp]
    linarith

theorem otherComp_self (b : DOMNode) (l : List (String × String))
    (hl : ∀ p ∈ l, attrsGet b.attributes p.1 = some p.2) :
    (otherComp b b l).1 = (otherComp b b l).2.1 := by
  induction l with
  | nil => simp [otherComp]
  | cons p rest ih =>
    have hstep := otherStep_self b p (hl p (List.mem_cons_self _ _))
    have ihr := ih (fun q hq => hl q (List.mem_cons_of_mem _ hq))
    simp only [otherComp]
    linarith

theorem structComp_snd (b c : DOMNode) : (structComp b c).2.1 = 10 := by
  unfold structComp
  split_ifs <;> rfl

theorem structComp_fst_nonneg (b c : DOMNode) : 0 ≤ (structComp b c).1 := by
  unfold structComp
  split_ifs <;> norm_num

theorem structComp_fst_le_five (b c : DOMNode) : (structComp b c).1 ≤ 5 := by
  unfold structComp
  split_ifs <;> norm_num

theorem structComp_self (b : DOMNode) : (structComp b b).1 = 5 := by
  unfold structComp
  rw [if_pos (by simp)]

/-! ## Assembled scorer facts -/

theorem simMax_eq_self (b c : DOMNode) : simMax b c = simMax b b := by
  unfold simMax
  rw [idComp_snd_eq, classComp_snd_eq, textComp_snd_eq, impComp_snd_eq,
    otherComp_snd_eq, structComp_snd b c, structComp_snd b b]

theorem simMax_ge_twenty (b c : DOMNode) : 20 ≤ simMax b c := by
  unfold simMax
  have h1 := idComp_snd_nonneg b c
  have h2 := classComp_snd_nonneg b c
  have h3 := textComp_snd_nonneg b c
  have h4 := impComp_snd_nonneg b c importantAttrs
  have h5 := otherComp_snd_nonneg b c b.attributes
  rw [structComp_snd]
  linarith

theorem simMax_pos (b c : DOMNode) : 0 < simMax b c := by
  linarith [simMax_ge_twenty b c]

theorem simTotal_nonneg (b c : DOMNode) : 0 ≤ simTotal b c := by
  unfold simTotal
  have h1 := idComp_fst_nonneg b c
  have h2 := classComp_fst_nonneg b c
  have h3 := textComp_fst_nonneg b c
  have h4 := impComp_fst_nonneg b c importantAttrs
  have h5 := otherComp_fst_nonneg b c b.attributes
  have h6 := structComp_fst_nonneg b c
  linarith

theorem simTotal_le (b c : DOMNode) : simTotal b c ≤ simMax b c - 5 := by
  unfold simTotal simMax
  have h1 := idComp_fst_le b c
  have h2 := classComp_fst_le b c
  have h3 := textComp_fst_le b c
  have h4 := impComp_fst_le b c importantAttrs
  have h5 := otherComp_fst_le b c b.attributes
  have h6 := structComp_fst_le_five b c
  rw [structComp_snd]
  linarith

theorem simTotal_self (b : DOMNode) (hnd : (b.attributes.map Prod.fst).Nodup) :
    simTotal b b = simMax b b - 5 := by
  unfold simTotal simMax
  have h1 := idComp_self b
  have h2 := classComp_self b
  have h3 := textComp_self b
  have h4 := impComp_self b importantAttrs
  have h5 := otherComp_self b b.attributes
    (fun p hp => attrsGet_mem b.attributes p.1 p.2 hnd hp)
  have h6 := structComp_self b
  rw [structComp_snd]
  linarith

theorem simMax_ge_fifty (b c : DOMNode) (i : String) (hb : b.id = some i)
    (hi : i ≠ "") : 50 ≤ simMax b c := by
  unfold simMax
  have h1 := idComp_snd_of_id b c i hb hi
  have h2 := classComp_snd_nonneg b c
  have h3 := textComp_snd_nonneg b c
  have h4 := impComp_snd_nonneg b c importantAttrs
  have h5 := otherComp_snd_nonneg b c b.attributes
  rw [structComp_snd, h1]
  linarith

theorem simTotal_le_of_id_ne (b c : DOMNode) (i : String) (hb : b.id = some i)
    (hi : i ≠ "") (hc : c.id ≠ some i) :
    simTotal b c ≤ simMax b c - 35 := by
  unfold simTotal simMax
  obtain ⟨hz, h30⟩ := idComp_of_ne b c i hb hi hc
  have h2 := classComp_fst_le b c
  have h3 := textComp_fst_le b c
  have h4 := impComp_fst_le b c importantAttrs
  have h5 := otherComp_fst_le b c b.attributes
  have h6 := structComp_fst_le_five b c
  rw [structComp_snd, hz, h30]
  linarith

theorem calcSim_of_tag_ne (b c : DOMNode) (h : b.tagName ≠ c.tagName) :
    calculateSimilarityScore b c = ⟨0, []⟩ := by
  simp [calculateSimilarityScore, h]

theorem calcSim_score_of_tag_eq (b c : DOMNode) (h : b.tagName = c.tagName) :
    (calculateSimilarityScore b c).score = simTotal b c / simMax b c := by
  rw [calculateSimilarityScore, if_neg (by simp [h]), if_pos (simMax_pos b c)]

theorem calcSim_score_nonneg (b c : DOMNode) :
    0 ≤ (calculateSimilarityScore b c).score := by
  by_cases h : b.tagName = c.tagName
  · rw [calcSim_score_of_tag_eq b c h]
    exact div_nonneg (simTotal_nonneg b c) (le_of_lt (simMax_pos b c))
  · rw [calcSim_of_tag_ne b c h]

theorem calcSim_score_le_one (b c : DOMNode) :
    (calculateSimilarityScore b c).score ≤ 1 := by
  by_cases h : b.tagName = c.tagName
  · rw [calcSim_score_of_tag_eq b c h, div_le_one (simMax_pos b c)]
    linarith [simTotal_le b c]
  · rw [calcSim_of_tag_ne b c h]
    norm_num

theorem calcSim_score_lt_one (b c : DOMNode) :
    (calculateSimilarityScore b c).score < 1 := by
  by_cases h : b.tagName = c.tagName
  · rw [calcSim_score_of_tag_eq b c h, div_lt_one (simMax_pos b c)]
    linarith [simTotal_le b c]
  · rw [calcSim_of_tag_ne b c h]
    norm_num

theorem calcSim_score_self (b : DOMNode)
    (hnd : (b.attributes.map Prod.fst).Nodup) :
    (calculateSimilarityScore b b).score = (simMax b b - 5) / simMax b b := by
  rw [calcSim_score_of_tag_eq b b rfl, simTotal_self b hnd]

theorem calcSim_score_le_self (b c : DOMNode)
    (hnd : (b.attributes.map Prod.fst).Nodup) :
    (calculateSimilarityScore b c).score ≤ (calculateSimilarityScore b b).score := by
  rw [calcSim_score_self b hnd]
  by_cases h : b.tagName = c.tagName
  · rw [calcSim_score_of_tag_eq b c h, ← simMax_eq_self b c,
      div_le_div_right (simMax_pos b c)]
    linarith [simTotal_le b c]
  · rw [calcSim_of_tag_ne b c h]
    show (0 : ℚ) ≤ _
    have h20 := simMax_ge_twenty b b
    apply div_nonneg ?_ (le_of_lt (simMax_pos b b))
    linarith

theorem calcSim_score_self_ge (b : DOMNode) (i : String)
    (hnd : (b.attributes.map Prod.fst).Nodup) (hb : b.id = some i)
    (hi : i ≠ "") :
    (9 : ℚ)/10 ≤ (calculateSimilarityScore b b).score := by
  rw [calcSim_score_self b hnd]
  have h50 := simMax_ge_fifty b b i hb hi
  rw [le_div_iff (simMax_pos b b)]
  linarith

theorem calcSim_score_lt_self_of_id_ne (b c : DOMNode) (i : String)
    (hnd : (b.attributes.map Prod.fst).Nodup) (hb : b.id = some i)
    (hi : i ≠ "") (hc : c.id ≠ some i) :
    (calculateSimilarityScore b c).score < (calculateSimilarityScore b b).score := by
  rw [calcSim_score_self b hnd]
  have h50 := simMax_ge_fifty b b i hb hi
  by_cases h : b.tagName = c.tagName
  · rw [calcSim_score_of_tag_eq b c h, ← simMax_eq_self b c,
      div_lt_div_right (simMax_pos b c)]
    have hle := simTotal_le_of_id_ne b c i hb hi hc
    have hM : simMax b c = simMax b b := simMax_eq_self b c
    rw [hM] at hle ⊢
    linarith
  · rw [calcSim_of_tag_ne b c h]
    show (0 : ℚ) < _
    apply div_pos ?_ (simMax_pos b b)
    linarith

/-! ## Lemmas about the synthesizer -/

theorem est_bounds (s : String) (r : DOMNode) :
    1/2 ≤ estimateSelectorSpecificity s r ∧ estimateSelectorSpecificity s r ≤ 1 := by
  unfold estimateSelectorSpecificity
  split_ifs <;> norm_num

theorem est_pos_le (x : String) (r : DOMNode) :
    0 < estimateSelectorSpecificity x r ∧ estimateSelectorSpecificity x r ≤ 1 := by
  have := est_bounds x r
  constructor <;> linarith

theorem est_mul_pos_le (x : String) (r : DOMNode) (c : ℚ) (hc1 : 0 < c)
    (hc2 : c ≤ 1) :
    0 < estimateSelectorSpecificity x r * c ∧
      estimateSelectorSpecificity x r * c ≤ 1 := by
  have := est_bounds x r
  constructor <;> nlinarith

theorem rawSelectors_spec_bounds (e r : DOMNode) :
    ∀ s ∈ rawSelectors e r, 0 < s.specificity ∧ s.specificity ≤ 1 := by
  intro s hs
  simp only [rawSelectors, List.mem_append] at hs
  rcases hs with ((((((h | h) | h) | h) | h) | h) | h) | h
  · split at h
    · rw [List.mem_singleton] at h
      subst h
      norm_num
    · exact absurd h (List.not_mem_nil s)
  · split at h
    · split at h
      · exact absurd h (List.not_mem_nil s)
      · rcases List.mem_cons.1 h with rfl | h2
        · exact est_pos_le _ r
        · split at h2
          · rw [List.mem_filterMap] at h2
            obtain ⟨cls, hcls, hf⟩ := h2
            split at hf
            · exact absurd hf (by simp)
            · split at hf
              · obtain rfl := Option.some.inj hf
                exact est_pos_le _ r
              · exact absurd hf (by simp)
          · exact absurd h2 (List.not_mem_nil s)
    · exact absurd h (List.not_mem_nil s)
  · rw [List.mem_filterMap] at h
    obtain ⟨p, hp, hf⟩ := h
    split at hf
    · exact absurd hf (by simp)
    · split at hf
      · split at hf
        · obtain rfl := Option.some.inj hf
          exact est_pos_le _ r
        · exact absurd hf (by simp)
      · exact absurd hf (by simp)
  · rw [List.mem_filterMap] at h
    obtain ⟨p, hp, hf⟩ := h
    split at hf
    · exact absurd hf (by simp)
    · split at hf
      · split at hf
        · obtain rfl := Option.some.inj hf
          exact est_pos_le _ r
        · exact absurd hf (by simp)
      · exact absurd hf (by simp)
  · split at h
    · split at h
      · exact absurd h (List.not_mem_nil s)
      · rw [List.mem_singleton] at h
        subst h
        exact est_pos_le _ r
    · exact absurd h (List.not_mem_nil s)
  · split at h
    · exact absurd h (List.not_mem_nil s)
    · split at h
      · split at h
        · rw [List.mem_singleton] at h
          subst h
          exact est_mul_pos_le _ r 0.9 (by norm_num) (by norm_num)
        · rw [List.mem_singleton] at h
          subst h
          exact est_mul_pos_le _ r 0.8 (by norm_num) (by norm_num)
      · exact absurd h (List.not_mem_nil s)
  · rw [List.mem_singleton] at h
    subst h
    norm_num
  · rw [List.mem_singleton] at h
    subst h
    norm_num

/-! ## Lemmas about the dedup map -/

theorem mapSet_ne_nil (m : List (String × GeneratedSelector)) (k : String)
    (v : GeneratedSelector) : mapSet m k v ≠ [] := by
  cases m with
  | nil => simp [mapSet]
  | cons p rest =>
    obtain ⟨k0, v0⟩ := p
    rw [mapSet]
    split_ifs <;> simp

theorem mapSet_mem (m : List (String × GeneratedSelector)) (k : String)
    (v : GeneratedSelector) (p : String × GeneratedSelector)
    (hp : p ∈ mapSet m k v) : p ∈ m ∨ p = (k, v) := by
  induction m with
  | nil =>
    rw [mapSet] at hp
    right
    exact List.mem_singleton.1 hp
  | cons q rest ih =>
    obtain ⟨k0, v0⟩ := q
    rw [mapSet] at hp
    split_ifs at hp with hk
    · rcases List.mem_cons.1 hp with rfl | hp'
      · right
        rw [hk]
      · left
        exact List.mem_cons_of_mem _ hp'
    · rcases List.mem_cons.1 hp with rfl | hp'
      · left
        exact List.mem_cons_self _ _
      · rcases ih hp' with h | h
        · left
          exact List.mem_cons_of_mem _ h
        · right
          exact h

theorem mapSet_keys_mem (m : List (String × GeneratedSelector)) (k : String)
    (v : GeneratedSelector) (k' : String)
    (hk : k' ∈ (mapSet m k v).map Prod.fst) :
    k' ∈ m.map Prod.fst ∨ k' = k := by
  rw [List.mem_map] at hk
  obtain ⟨p, hp, hpk⟩ := hk
  rcases mapSet_mem m k v p hp with h | h
  · left
    exact List.mem_map.2 ⟨p, h, hpk⟩
  · right
    rw [h] at hpk
    exact hpk.symm

theorem mapSet_keys_nodup (m : List (String × GeneratedSelector)) (k : String)
    (v : GeneratedSelector) (hm : (m.map Prod.fst).Nodup) :
    ((mapSet m k v).map Prod.fst).Nodup := by
  induction m with
  | nil => simp [mapSet]
  | cons q rest ih =>
    obtain ⟨k0, v0⟩ := q
    rw [List.map_cons, List.nodup_cons] at hm
    rw [mapSet]
    split_ifs with hk
    · rw [List.map_cons, List.nodup_cons]
      exact hm
    · rw [List.map_cons, List.nodup_cons]
      refine ⟨?_, ih hm.2⟩
      intro hcon
      rcases mapSet_keys_mem rest k v k0 hcon with h | h
      · exact hm.1 h
      · exact hk h

theorem mapSet_find_self (m : List (String × GeneratedSelector)) (k : String)
    (v : GeneratedSelector) : mapFind (mapSet m k v) k = some v := by
  induction m with
  | nil => simp [mapSet, mapFind]
  | cons q rest ih =>
    obtain ⟨k0, v0⟩ := q
    rw [mapSet]
    split_ifs with hk
    · rw [mapFind, if_pos hk]
    · rw [mapFind, if_neg hk]
      exact ih

theorem mapSet_find_other (m : List (String × GeneratedSelector)) (k : String)
    (v : GeneratedSelector) (k' : String) (hk : k ≠ k') :
    mapFind (mapSet m k v) k' = mapFind m k' := by
  induction m with
  | nil => simp [mapSet, mapFind, hk]
  | cons q rest ih =>
    obtain ⟨k0, v0⟩ := q
    rw [mapSet]
    split_ifs with h0
    · rw [mapFind, mapFind]
      split_ifs with h1
      · exact absurd (h0 ▸ h1) hk
      · rfl
    · rw [mapFind, mapFind]
      split_ifs with h1
      · rfl
      · exact ih

/-- Every entry of the dedup map has its key equal to its value's selector
string, provided the initial map does. -/
theorem dedupFold_good (l : List GeneratedSelector) :
    ∀ m, (∀ p ∈ m, (p : String × GeneratedSelector).2.value = p.1) →
      ∀ p ∈ dedupFold m l, (p : String × GeneratedSelector).2.value = p.1 := by
  induction l with
  | nil =>
    intro m hm p hp
    rw [dedupFold] at hp
    exact hm p hp
  | cons s rest ih =>
    intro m hm p hp
    rw [dedupFold] at hp
    refine ih _ ?_ p hp
    intro q hq
    split_ifs at hq with hkeep
    · rcases mapSet_mem m s.value s q hq with h | h
      · exact hm q h
      · rw [h]
    · exact hm q hq

theorem dedupFold_keys_nodup (l : List GeneratedSelector) :
    ∀ m, ((m : List (String × GeneratedSelector)).map Prod.fst).Nodup →
      ((dedupFold m l).map Prod.fst).Nodup := by
  induction l with
  | nil =>
    intro m hm
    rw [dedupFold]
    exact hm
  | cons s rest ih =>
    intro m hm
    rw [dedupFold]
    refine ih _ ?_
    split_ifs with hkeep
    · exact mapSet_keys_nodup m s.value s hm
    · exact hm

theorem dedupFold_mem (l : List GeneratedSelector) :
    ∀ m p, p ∈ dedupFold m l →
      p ∈ m ∨ (p : String × GeneratedSelector).2 ∈ l := by
  induction l with
  | nil =>
    intro m p hp
    rw [dedupFold] at hp
    exact Or.inl hp
  | cons s rest ih =>
    intro m p hp
    rw [dedupFold] at hp
    rcases ih _ p hp with h | h
    · split_ifs at h with hkeep
      · rcases mapSet_mem m s.value s p h with h' | h'
        · exact Or.inl h'
        · right
          rw [h']
          exact List.mem_cons_self _ _
      · exact Or.inl h
    · right
      exact List.mem_cons_of_mem _ h

theorem dedupFold_ne_nil (l : List GeneratedSelector) :
    ∀ m, m ≠ [] → dedupFold m l ≠ [] := by
  induction l with
  | nil =>
    intro m hm
    rw [dedupFold]
    exact hm
  | cons s rest ih =>
    intro m hm
    rw [dedupFold]
    refine ih _ ?_
    split_ifs with hkeep
    · exact mapSet_ne_nil m s.value s
    · exact hm

/-- After folding, the value found at an existing key can only have grown in
specificity. -/
theorem dedupFold_find_ge (l : List GeneratedSelector) :
    ∀ m k v, mapFind m k = some v →
      ∃ v', mapFind (dedupFold m l) k = some v' ∧
        v.specificity ≤ v'.specificity := by
  induction l with
  | nil =>
    intro m k v hv
    rw [dedupFold]
    exact ⟨v, hv, le_refl _⟩
  | cons s rest ih =>
    intro m k v hv
    rw [dedupFold]
    by_cases hk : s.value = k
    · subst hk
      rw [hv]
      by_cases hlt : v.specificity < s.specificity
      · rw [if_pos (by simp [hlt])]
        obtain ⟨v', hfind, hge⟩ := ih _ s.value s (mapSet_find_self m s.value s)
        exact ⟨v', hfind, le_trans (le_of_lt hlt) hge⟩
      · rw [if_neg (by simp [hlt])]
        exact ih _ _ v hv
    · split_ifs with hkeep
      · obtain ⟨v', hfind, hge⟩ :=
          ih _ k v (by rw [mapSet_find_other m s.value s k hk]; exact hv)
        exact ⟨v', hfind, hge⟩
      · exact ih _ _ v hv

/-- After folding, every selector of the input list is dominated by the
entry stored at its key. -/
theorem dedupFold_find_of_mem (l : List GeneratedSelector) :
    ∀ m s, s ∈ l →
      ∃ v', mapFind (dedupFold m l) s.value = some v' ∧
        s.specificity ≤ v'.specificity := by
  induction l with
  | nil =>
    intro m s hs
    exact absurd hs (List.not_mem_nil s)
  | cons s0 rest ih =>
    intro m s hs
    rcases List.mem_cons.1 hs with rfl | hs'
    · rw [dedupFold]
      rcases hf : mapFind m s.value with _ | existing
      · rw [if_pos (by rfl)]
        exact dedupFold_find_ge rest _ s.value s (mapSet_find_self m s.value s)
      · by_cases hlt : existing.specificity < s.specificity
        · rw [if_pos (by simp [hlt])]
          exact dedupFold_find_ge rest _ s.value s (mapSet_find_self m s.value s)
        · rw [if_neg (by simp [hlt])]
          obtain ⟨v', hfind, hge⟩ := dedupFold_find_ge rest _ s.value existing hf
          exact ⟨v', hfind, le_trans (not_lt.1 hlt) hge⟩
    · rw [dedupFold]
      exact ih _ s hs'

/-- In a map with distinct keys, a stored entry is exactly what `mapFind`
returns. -/
theorem mapFind_of_mem (m : List (String × GeneratedSelector))
    (hnd : (m.map Prod.fst).Nodup) (p : String × GeneratedSelector)
    (hp : p ∈ m) : mapFind m p.1 = some p.2 := by
  induction m with
  | nil => exact absurd hp (List.not_mem_nil p)
  | cons q rest ih =>
    obtain ⟨k0, v0⟩ := q
    rw [List.map_cons, List.nodup_cons] at hnd
    rcases List.mem_cons.1 hp with rfl | hp'
    · rw [mapFind, if_pos rfl]
    · rw [mapFind]
      have hne : k0 ≠ p.1 := by
        intro h0
        exact hnd.1 (h0 ▸ List.mem_map.2 ⟨p, hp', rfl⟩)
      rw [if_neg hne]
      exact ih hnd.2 hp'

/-- Head preservation: if the head of the map dominates every selector still
to be folded, it stays the head. -/
theorem dedupFold_head (l : List GeneratedSelector) :
    ∀ (k0 : String) (v0 : GeneratedSelector)
      (m' : List (String × GeneratedSelector)),
      (∀ s ∈ l, s.specificity ≤ v0.specificity) →
      ∃ m'', dedupFold ((k0, v0) :: m') l = (k0, v0) :: m'' := by
  induction l with
  | nil =>
    intro k0 v0 m' hle
    exact ⟨m', rfl⟩
  | cons s rest ih =>
    intro k0 v0 m' hle
    rw [dedupFold]
    by_cases hk : k0 = s.value
    · rw [mapFind, if_pos hk]
      have hnlt : ¬ v0.specificity < s.specificity :=
        not_lt.2 (hle s (List.mem_cons_self _ _))
      rw [if_neg (by simp [hnlt])]
      exact ih k0 v0 m' (fun t ht => hle t (List.mem_cons_of_mem _ ht))
    · have hstep :
        (if (match mapFind ((k0, v0) :: m') s.value with
             | none => true
             | some existing => decide (existing.specificity < s.specificity)) = true
         then mapSet ((k0, v0) :: m') s.value s
         else (k0, v0) :: m') =
          (k0, v0) ::
            (if (match mapFind ((k0, v0) :: m') s.value with
                 | none => true
                 | some existing =>
                   decide (existing.specificity < s.specificity)) = true
             then mapSet m' s.value s else m') := by
        split_ifs with hkeep
        · rw [mapSet, if_neg hk]
        · rfl
      rw [hstep]
      exact ih k0 v0 _ (fun t ht => hle t (List.mem_cons_of_mem _ ht))

/-! ## Lemmas about dedup and the full synthesizer -/

theorem removeDup_mem_raw (sel : List GeneratedSelector) (v : GeneratedSelector)
    (hv : v ∈ removeDuplicateSelectors sel) : v ∈ sel := by
  rw [removeDuplicateSelectors, List.mem_map] at hv
  obtain ⟨p, hp, hp2⟩ := hv
  rcases dedupFold_mem sel [] p hp with h | h
  · exact absurd h (List.not_mem_nil p)
  · rw [← hp2]
    exact h

theorem removeDup_pairwise (sel : List GeneratedSelector) :
    (removeDuplicateSelectors sel).Pairwise (fun a b => a.value ≠ b.value) := by
  rw [removeDuplicateSelectors, List.pairwise_map]
  have hnd : ((dedupFold [] sel).map Prod.fst).Nodup :=
    dedupFold_keys_nodup sel [] (by simp)
  have hgood := dedupFold_good sel [] (by simp)
  have hkeys : (dedupFold [] sel).Pairwise (fun p q => p.1 ≠ q.1) :=
    List.pairwise_map.1 hnd
  refine hkeys.imp_of_mem ?_
  intro p q hp hq hne
  rw [hgood p hp, hgood q hq]
  exact hne

theorem removeDup_max (sel : List GeneratedSelector) (v : GeneratedSelector)
    (hv : v ∈ removeDuplicateSelectors sel) (s : GeneratedSelector) (hs : s ∈ sel)
    (heq : s.value = v.value) : s.specificity ≤ v.specificity := by
  rw [removeDuplicateSelectors, List.mem_map] at hv
  obtain ⟨p, hp, hp2⟩ := hv
  have hgood := dedupFold_good sel [] (by simp) p hp
  have hnd : ((dedupFold [] sel).map Prod.fst).Nodup :=
    dedupFold_keys_nodup sel [] (by simp)
  have hfind := mapFind_of_mem (dedupFold [] sel) hnd p hp
  obtain ⟨v', hfind', hge⟩ := dedupFold_find_of_mem sel [] s hs
  have hkey : s.value = p.1 := by
    rw [heq, ← hp2, hgood]
  rw [hkey] at hfind'
  rw [hfind] at hfind'
  obtain rfl := Option.some.inj hfind'
  rw [← hp2]
  exact hge

theorem removeDup_ne_nil (sel : List GeneratedSelector) (h : sel ≠ []) :
    removeDuplicateSelectors sel ≠ [] := by
  rw [removeDuplicateSelectors]
  cases sel with
  | nil => exact absurd rfl h
  | cons s rest =>
    rw [dedupFold, if_pos (by rfl)]
    intro hcon
    rw [List.map_eq_nil_iff] at hcon
    exact dedupFold_ne_nil rest (mapSet [] s.value s)
      (mapSet_ne_nil [] s.value s) hcon

theorem removeDup_cons_of_max (s : GeneratedSelector)
    (rest : List GeneratedSelector)
    (hmax : ∀ t ∈ rest, t.specificity ≤ s.specificity) :
    ∃ vs, removeDuplicateSelectors (s :: rest) = s :: vs := by
  rw [removeDuplicateSelectors, dedupFold, if_pos (by rfl)]
  have hset : mapSet [] s.value s = [(s.value, s)] := rfl
  rw [hset]
  obtain ⟨m'', hm⟩ := dedupFold_head rest s.value s [] hmax
  rw [hm, List.map_cons]
  exact ⟨m''.map (fun p => p.2), rfl⟩

theorem generateSelectors_mem_raw (e root : DOMNode) (s : GeneratedSelector)
    (h : s ∈ generateSelectors e root) : s ∈ rawSelectors e root := by
  rw [generateSelectors, mem_sortByDesc] at h
  exact removeDup_mem_raw _ s h

theorem generateSelectors_spec_bounds (e root : DOMNode) :
    ∀ s ∈ generateSelectors e root, 0 < s.specificity ∧ s.specificity ≤ 1 :=
  fun s hs => rawSelectors_spec_bounds e root s (generateSelectors_mem_raw e root s hs)

theorem generateSelectors_pairwise (e root : DOMNode) :
    (generateSelectors e root).Pairwise (fun a b => a.value ≠ b.value) := by
  rw [generateSelectors]
  have hperm := sortByDesc_perm (fun s : GeneratedSelector => s.specificity)
    (removeDuplicateSelectors (rawSelectors e root))
  exact (hperm.pairwise_iff (by intro x y h; exact Ne.symm h)).2
    (removeDup_pairwise (rawSelectors e root))

theorem rawSelectors_ne_nil (e root : DOMNode) : rawSelectors e root ≠ [] := by
  rw [rawSelectors]
  simp

theorem generateSelectors_ne_nil (e root : DOMNode) :
    generateSelectors e root ≠ [] := by
  rw [generateSelectors]
  exact sortByDesc_ne_nil _ _
    (removeDup_ne_nil _ (rawSelectors_ne_nil e root))

theorem generateSelectors_head_id (e root : DOMNode) (i : String)
    (hid : e.id = some i) (hi : i ≠ "") :
    ∃ vs, generateSelectors e root =
      ⟨"#" ++ i, HealingStrategy.idBased, 1⟩ :: vs := by
  have htr : truthy e.id = true := by
    rw [hid]
    simpa [truthy] using hi
  obtain ⟨rest, hraw⟩ :
      ∃ rest, rawSelectors e root =
        ⟨"#" ++ i, HealingStrategy.idBased, 1⟩ :: rest := by
    rw [rawSelectors, if_pos htr, hid]
    simp only [List.append_assoc, List.singleton_append, Option.getD_some]
    have h10 : (1.0 : ℚ) = 1 := by norm_num
    rw [h10]
    exact ⟨_, rfl⟩
  have hmaxrest : ∀ t ∈ rest,
      t.specificity ≤
        (⟨"#" ++ i, HealingStrategy.idBased, (1 : ℚ)⟩ : GeneratedSelector).specificity := by
    intro t ht
    have : t ∈ rawSelectors e root := by
      rw [hraw]
      exact List.mem_cons_of_mem _ ht
    exact (rawSelectors_spec_bounds e root t this).2
  rw [generateSelectors, hraw]
  obtain ⟨vs0, hdedup⟩ := removeDup_cons_of_max _ rest hmaxrest
  rw [hdedup]
  refine sortByDesc_cons_of_max _ _ vs0 ?_
  intro a ha
  have hmem : a ∈ removeDuplicateSelectors
      (⟨"#" ++ i, HealingStrategy.idBased, 1⟩ :: rest) := by
    rw [hdedup]
    exact ha
  have hmem' : a ∈ rawSelectors e root := by
    rw [hraw]
    exact removeDup_mem_raw _ a hmem
  exact (rawSelectors_spec_bounds e root a hmem').2

/-! ## Lemmas about the candidate finder -/

theorem mem_findElementsByFeatures (root : DOMNode) (f : List ElementFeature)
    (tg : String) (n : DOMNode) :
    n ∈ findElementsByFeatures root f tg ↔
      n ∈ preorderN root ∧ candidatePred f tg n = true := by
  rw [findElementsByFeatures, findElemsN_eq, List.mem_filter]

theorem getAttributeWeight_nonneg (n : String) : 0 ≤ getAttributeWeight n := by
  simp only [getAttributeWeight]
  split_ifs <;> norm_num

theorem extractFeatures_weight_nonneg (e : DOMNode) :
    ∀ ft ∈ extractFeatures e, 0 ≤ ft.weight := by
  intro ft hft
  simp only [extractFeatures, List.mem_append] at hft
  rcases hft with ((h | h) | h) | h
  · split at h
    · rw [List.mem_singleton] at h
      subst h
      norm_num
    · exact absurd h (List.not_mem_nil ft)
  · split at h
    · rw [List.mem_map] at h
      obtain ⟨cls, -, hcls⟩ := h
      subst hcls
      norm_num
    · exact absurd h (List.not_mem_nil ft)
  · split at h
    · rw [List.mem_singleton] at h
      subst h
      norm_num
    · exact absurd h (List.not_mem_nil ft)
  · rw [List.mem_filterMap] at h
    obtain ⟨p, -, hp⟩ := h
    split at hp
    · exact absurd hp (by simp)
    · obtain rfl := Option.some.inj hp
      exact getAttributeWeight_nonneg p.1

theorem featureMatchAmount_nonneg (node : DOMNode) (ft : ElementFeature)
    (hw : 0 ≤ ft.weight) : 0 ≤ featureMatchAmount node ft := by
  simp only [featureMatchAmount]
  split_ifs <;> first | exact hw | exact le_refl (0 : ℚ)

theorem id_feature_mem (e : DOMNode) (i : String) (hid : e.id = some i)
    (hi : i ≠ "") : (⟨"id", i, 1⟩ : ElementFeature) ∈ extractFeatures e := by
  have htr : truthy e.id = true := by
    rw [hid]
    simpa [truthy] using hi
  simp only [extractFeatures, List.mem_append]
  left
  left
  left
  rw [if_pos htr, hid]
  simp

theorem countFeatureMatches_self_pos (e : DOMNode) (i : String)
    (hid : e.id = some i) (hi : i ≠ "") :
    0 < countFeatureMatches e (extractFeatures e) := by
  have hmem := id_feature_mem e i hid hi
  have hamt : featureMatchAmount e ⟨"id", i, 1⟩ = 1 := by
    unfold featureMatchAmount
    rw [if_pos rfl, if_pos (by rw [hid])]
  have hmem' : featureMatchAmount e ⟨"id", i, 1⟩ ∈
      (extractFeatures e).map (featureMatchAmount e) :=
    List.mem_map.2 ⟨_, hmem, rfl⟩
  have hall : ∀ x ∈ (extractFeatures e).map (featureMatchAmount e), 0 ≤ x := by
    intro x hx
    rw [List.mem_map] at hx
    obtain ⟨ft, hft, hxe⟩ := hx
    subst hxe
    exact featureMatchAmount_nonneg e ft (extractFeatures_weight_nonneg e ft hft)
  have hle := List.single_le_sum hall _ hmem'
  rw [hamt] at hle
  rw [countFeatureMatches]
  linarith

theorem candidatePred_self (e : DOMNode) (i : String) (hid : e.id = some i)
    (hi : i ≠ "") :
    candidatePred (extractFeatures e) e.tagName e = true := by
  unfold candidatePred
  rw [Bool.and_eq_true, beq_iff_eq, decide_eq_true_iff]
  exact ⟨rfl, countFeatureMatches_self_pos e i hid hi⟩

/-! ## Unfolding helpers for the orchestrator -/

theorem healSelector_eq_none (sel : String) (b cur : DOMSnapshot)
    (h : findElementBySelector b.rootNode sel = none) :
    healSelector sel b cur = [] := by
  unfold healSelector
  rw [h]

theorem healSelector_eq_some (sel : String) (b cur : DOMSnapshot)
    (bElem : DOMNode) (h : findElementBySelector b.rootNode sel = some bElem) :
    healSelector sel b cur =
      (if (findCandidateElements bElem cur.rootNode).length = 0 then []
       else
         sortByDesc (fun r => r.score)
           (((scoreElements bElem (findCandidateElements bElem cur.rootNode)).filter
               (fun c => !decide (c.score < 0.3))).flatMap
             (fun c =>
               (generateSelectors c.element cur.rootNode).map
                 (fun s =>
                   { selector := s.value
                     score := c.score * s.specificity
                     strategy := s.strategy
                     source := HealSource.local })))) := by
  unfold healSelector
  rw [h]

/-! ## Concrete sample data -/

/-- A one-node tree with id `foo`. -/
def exampleNode : DOMNode := .mk "div" (some "foo") none [] none []

/-- A snapshot of `exampleNode`. -/
def exampleSnap : DOMSnapshot := ⟨"https://example.test/", none, 0, exampleNode⟩

/-- A node whose only attribute value contains `=`. -/
def eqAttrNode : DOMNode := .mk "a" none none [("href", "a=b")] none []

/-- A node whose text content has surrounding whitespace. -/
def wsTextNode : DOMNode := .mk "p" none none [] (some " hi ") []

/-! ## The claims -/

/-- C3: healing with an originalLocator that does not start with `#`
returns an empty result sequence (and, the model being total, cannot
raise). -/
theorem claim3_non_hash_locator_empty (baseline current : DOMSnapshot)
    (sel : String) (h : jsStartsWith sel "#" = false) :
    healSelector sel baseline current = [] := by
  apply healSelector_eq_none
  rw [findElementBySelector, if_neg (by simp [h])]

theorem claim3_witness :
    jsStartsWith ".some-class" "#" = false ∧
      healSelector ".some-class" exampleSnap exampleSnap = [] :=
  ⟨by decide,
   claim3_non_hash_locator_empty exampleSnap exampleSnap ".some-class" (by decide)⟩

/-- C4: for every reference node and every candidate node, the similarity
score computed by the Scorer lies in the closed interval `[0, 1]`. -/
theorem claim4_score_in_unit_interval (b c : DOMNode) :
    0 ≤ (calculateSimilarityScore b c).score ∧
      (calculateSimilarityScore b c).score ≤ 1 :=
  ⟨calcSim_score_nonneg b c, calcSim_score_le_one b c⟩

/-- C8: for every pair of nodes whose tag names differ, the Scorer returns
score exactly `0` and an empty matched-feature list, with no further
scoring. -/
theorem claim8_tag_veto (b c : DOMNode) (h : b.tagName ≠ c.tagName) :
    calculateSimilarityScore b c = ⟨0, []⟩ :=
  calcSim_of_tag_ne b c h

theorem claim8_witness :
    (DOMNode.mk "div" none none [] none []).tagName ≠
        (DOMNode.mk "span" none none [] none []).tagName ∧
      calculateSimilarityScore (DOMNode.mk "div" none none [] none [])
        (DOMNode.mk "span" none none [] none []) = ⟨0, []⟩ :=
  ⟨by decide,
   claim8_tag_veto (DOMNode.mk "div" none none [] none [])
     (DOMNode.mk "span" none none [] none []) (by decide)⟩

/-- C9: the structure step always adds `10` to the maximum possible score
but at most `5` to the total, so for equal tag names the score is at most
`(max - 5)/max`; a score of exactly `1.0` is unattainable for any pair. -/
theorem claim9_score_lt_one (b c : DOMNode) :
    ((structComp b c).2.1 = 10 ∧ (structComp b c).1 ≤ 5) ∧
      (b.tagName = c.tagName →
        (calculateSimilarityScore b c).score ≤
          (simMax b c - 5) / simMax b c) ∧
      (calculateSimilarityScore b c).score < 1 := by
  refine ⟨⟨structComp_snd b c, structComp_fst_le_five b c⟩, ?_, calcSim_score_lt_one b c⟩
  intro h
  rw [calcSim_score_of_tag_eq b c h, div_le_div_right (simMax_pos b c)]
  exact simTotal_le b c

theorem claim9_witness :
    exampleNode.tagName = exampleNode.tagName ∧
      (calculateSimilarityScore exampleNode exampleNode).score ≤
        (simMax exampleNode exampleNode - 5) / simMax exampleNode exampleNode ∧
      (calculateSimilarityScore exampleNode exampleNode).score < 1 :=
  ⟨rfl, (claim9_score_lt_one exampleNode exampleNode).2.1 rfl,
   (claim9_score_lt_one exampleNode exampleNode).2.2⟩

/-- C10: the Locator Synthesizer always returns a non-empty sequence: the
css-path and xpath fallbacks are generated unconditionally and
deduplication keeps at least one entry per distinct value. -/
theorem claim10_synthesizer_nonempty (e root : DOMNode) :
    generateSelectors e root ≠ [] :=
  generateSelectors_ne_nil e root

theorem claim10_witness : generateSelectors exampleNode exampleNode ≠ [] :=
  claim10_synthesizer_nonempty exampleNode exampleNode

/-- C5 evidence: the finder's attribute matching re-parses the encoded
`name="value"` string by splitting on every `=`, so an attribute value
containing `=` never matches, not even on a node identical to the
reference.  Here the reference's own attribute `href="a=b"` fails to match
the very same node, where the spec requires an exact-equality match. -/
theorem claim5_attribute_eq_mismatch :
    extractFeatures eqAttrNode =
        [⟨"attribute", "href=\"a=b\"", 0.7⟩] ∧
      countFeatureMatches eqAttrNode (extractFeatures eqAttrNode) = 0 ∧
      attrsGet eqAttrNode.attributes "href" = some "a=b" := by
  have hf : extractFeatures eqAttrNode =
      [⟨"attribute", "href=\"a=b\"", 0.7⟩] := rfl
  have hamt : featureMatchAmount eqAttrNode
      ⟨"attribute", "href=\"a=b\"", 0.7⟩ = 0 := rfl
  refine ⟨hf, ?_, rfl⟩
  rw [countFeatureMatches, hf, List.map_cons, List.map_nil, hamt]
  norm_num

/-- C6 counterexample: a node whose text content is `" hi "` produces
exactly one text feature, but its value is the raw text `" hi "`, not the
trimmed text `"hi"` the claim requires. -/
theorem claim6_counterexample :
    (extractFeatures wsTextNode).filter (fun f => f.type == "text") =
        [⟨"text", " hi ", 0.6⟩] ∧
      jsTrim " hi " = "hi" ∧ (" hi " : String) ≠ "hi" :=
  ⟨rfl, by decide, by decide⟩

/-- C6 (amended): for every node whose textContent is present and
non-empty, feature extraction produces exactly one `text` feature with
weight `0.6` whose value is the node's textContent verbatim (untrimmed). -/
theorem claim6_text_feature_verbatim (e : DOMNode) (tc : String)
    (htc : e.textContent = some tc) (hne : tc ≠ "") :
    (extractFeatures e).filter (fun f => f.type == "text") =
      [⟨"text", tc, 0.6⟩] := by
  have htr : truthy e.textContent = true := by
    rw [htc]
    simpa [truthy] using hne
  have h1 : (if truthy e.id then [(⟨"id", e.id.getD "", 1⟩ : ElementFeature)]
      else []).filter (fun f => f.type == "text") = [] := by
    split_ifs <;> simp
  have h2 : ((if truthy e.className then
        (jsTokens (e.className.getD "")).map
          (fun cls => (⟨"class", cls, 0.7⟩ : ElementFeature))
      else []).filter (fun f => f.type == "text")) = [] := by
    split_ifs
    · rw [List.filter_eq_nil_iff]
      intro f hf
      rw [List.mem_map] at hf
      obtain ⟨cls, -, rfl⟩ := hf
      simp
    · rfl
  have h3 : ((if truthy e.textContent then
        [(⟨"text", e.textContent.getD "", 0.6⟩ : ElementFeature)]
      else []).filter (fun f => f.type == "text")) = [⟨"text", tc, 0.6⟩] := by
    rw [if_pos htr, htc]
    simp
  have h4 : ((e.attributes.filterMap (fun p =>
        if p.1 = "id" ∨ p.1 = "class" then none
        else some (⟨"attribute", p.1 ++ "=\"" ++ p.2 ++ "\"",
          getAttributeWeight p.1⟩ : ElementFeature))).filter
      (fun f => f.type == "text")) = [] := by
    rw [List.filter_eq_nil_iff]
    intro f hf
    rw [List.mem_filterMap] at hf
    obtain ⟨p, -, hp⟩ := hf
    split at hp
    · exact absurd hp (by simp)
    · obtain rfl := Option.some.inj hp
      simp
  simp only [extractFeatures, List.filter_append]
  rw [h1, h2, h3, h4]
  simp

theorem claim6_witness :
    wsTextNode.textContent = some " hi " ∧ (" hi " : String) ≠ "" ∧
      (extractFeatures wsTextNode).filter (fun f => f.type == "text") =
        [⟨"text", " hi ", 0.6⟩] :=
  ⟨rfl, by decide,
   claim6_text_feature_verbatim wsTextNode " hi " rfl (by decide)⟩

/-- C7: the synthesizer's output contains no two entries with the same
selector value, every kept entry is one of the generated ones, and it has
the maximal specificity among all generated entries with its value. -/
theorem claim7_dedup (e root : DOMNode) :
    (generateSelectors e root).Pairwise (fun a b => a.value ≠ b.value) ∧
      ∀ s ∈ generateSelectors e root,
        s ∈ rawSelectors e root ∧
          ∀ t ∈ rawSelectors e root, t.value = s.value →
            t.specificity ≤ s.specificity := by
  refine ⟨generateSelectors_pairwise e root, ?_⟩
  intro s hs
  refine ⟨generateSelectors_mem_raw e root s hs, ?_⟩
  intro t ht heq
  rw [generateSelectors, mem_sortByDesc] at hs
  exact removeDup_max _ s hs t ht heq

theorem claim7_witness :
    (generateSelectors exampleNode exampleNode).Pairwise
        (fun a b => a.value ≠ b.value) ∧
      ((⟨"#foo", HealingStrategy.idBased, 1⟩ : GeneratedSelector) ∈
          rawSelectors exampleNode exampleNode ∧
        ∀ t ∈ rawSelectors exampleNode exampleNode,
          t.value = (⟨"#foo", HealingStrategy.idBased, 1⟩ : GeneratedSelector).value →
            t.specificity ≤
              (⟨"#foo", HealingStrategy.idBased, 1⟩ : GeneratedSelector).specificity) := by
  obtain ⟨vs, hv⟩ := generateSelectors_head_id exampleNode exampleNode "foo" rfl
    (by decide)
  have hmem : (⟨"#foo", HealingStrategy.idBased, 1⟩ : GeneratedSelector) ∈
      generateSelectors exampleNode exampleNode := by
    rw [hv]
    exact List.mem_cons_self _ _
  exact ⟨(claim7_dedup exampleNode exampleNode).1,
    (claim7_dedup exampleNode exampleNode).2 _ hmem⟩

/-- C2: the orchestrator discards every scored candidate with similarity
score below `0.3`; every emitted HealingResult comes from a surviving
candidate and a generated selector, with score = candidate score times
selector specificity and source `local`; conversely every selector of every
surviving candidate is emitted; and the returned sequence is sorted
descending by score. -/
theorem claim2_orchestrator (originalSelector : String)
    (baseline current : DOMSnapshot) :
    List.Sorted (fun a b : HealingResult => b.score ≤ a.score)
        (healSelector originalSelector baseline current) ∧
      (∀ r ∈ healSelector originalSelector baseline current,
        r.source = HealSource.local ∧
        ∃ bElem, findElementBySelector baseline.rootNode originalSelector = some bElem ∧
          ∃ c ∈ scoreElements bElem (findCandidateElements bElem current.rootNode),
            ¬ c.score < 0.3 ∧
            ∃ s ∈ generateSelectors c.element current.rootNode,
              r = ⟨s.value, c.score * s.specificity, s.strategy, HealSource.local⟩) ∧
      (∀ bElem,
        findElementBySelector baseline.rootNode originalSelector = some bElem →
        findCandidateElements bElem current.rootNode ≠ [] →
        ∀ c ∈ scoreElements bElem (findCandidateElements bElem current.rootNode),
          ¬ c.score < 0.3 →
          ∀ s ∈ generateSelectors c.element current.rootNode,
            (⟨s.value, c.score * s.specificity, s.strategy,
                HealSource.local⟩ : HealingResult) ∈
              healSelector originalSelector baseline current) := by
  rcases hfind : findElementBySelector baseline.rootNode originalSelector with _ | bElem
  · have hz := healSelector_eq_none originalSelector baseline current hfind
    refine ⟨?_, ?_, ?_⟩
    · rw [hz]
      exact List.sorted_nil
    · intro r hr
      rw [hz] at hr
      exact absurd hr (List.not_mem_nil r)
    · intro bE h
      exact absurd h (by simp)
  · have hs := healSelector_eq_some originalSelector baseline current bElem hfind
    by_cases hlen : (findCandidateElements bElem current.rootNode).length = 0
    · rw [if_pos hlen] at hs
      refine ⟨?_, ?_, ?_⟩
      · rw [hs]
        exact List.sorted_nil
      · intro r hr
        rw [hs] at hr
        exact absurd hr (List.not_mem_nil r)
      · intro bE h hne
        obtain rfl := Option.some.inj h
        exact absurd (List.length_eq_zero.1 hlen) hne
    · rw [if_neg hlen] at hs
      refine ⟨?_, ?_, ?_⟩
      · rw [hs]
        exact sortByDesc_sorted _ _
      · intro r hr
        rw [hs, mem_sortByDesc, List.mem_flatMap] at hr
        obtain ⟨c, hc, hr2⟩ := hr
        rw [List.mem_map] at hr2
        obtain ⟨s, hsel, rfl⟩ := hr2
        rw [List.mem_filter] at hc
        refine ⟨rfl, bElem, rfl, c, hc.1, ?_, s, hsel, rfl⟩
        simpa using hc.2
      · intro bE h hne c hc hsc s hsel
        obtain rfl := Option.some.inj h
        rw [hs, mem_sortByDesc, List.mem_flatMap]
        refine ⟨c, ?_, ?_⟩
        · rw [List.mem_filter]
          exact ⟨hc, by simpa using hsc⟩
        · rw [List.mem_map]
          exact ⟨s, hsel, rfl⟩

theorem claim2_witness :
    List.Sorted (fun a b : HealingResult => b.score ≤ a.score)
        (healSelector "#foo" exampleSnap exampleSnap) ∧
      (∀ r ∈ healSelector "#foo" exampleSnap exampleSnap,
        r.source = HealSource.local ∧
        ∃ bElem, findElementBySelector exampleSnap.rootNode "#foo" = some bElem ∧
          ∃ c ∈ scoreElements bElem
              (findCandidateElements bElem exampleSnap.rootNode),
            ¬ c.score < 0.3 ∧
            ∃ s ∈ generateSelectors c.element exampleSnap.rootNode,
              r = ⟨s.value, c.score * s.specificity, s.strategy, HealSource.local⟩) ∧
      (∀ bElem, findElementBySelector exampleSnap.rootNode "#foo" = some bElem →
        findCandidateElements bElem exampleSnap.rootNode ≠ [] →
        ∀ c ∈ scoreElements bElem
            (findCandidateElements bElem exampleSnap.rootNode),
          ¬ c.score < 0.3 →
          ∀ s ∈ generateSelectors c.element exampleSnap.rootNode,
            (⟨s.value, c.score * s.specificity, s.strategy,
                HealSource.local⟩ : HealingResult) ∈
              healSelector "#foo" exampleSnap exampleSnap) :=
  claim2_orchestrator "#foo" exampleSnap exampleSnap

/-! ## The round-trip theorem -/

/-- When the current tree equals the baseline tree and the baseline tree
has a node with id `foo` (and, as JavaScript objects guarantee, attribute
keys are unique), healing `#foo` puts the id-based selector `#foo` first,
scored with the resolved element's self-similarity score, which is
strictly below `1`. -/
theorem healSelector_roundtrip_core (baseline current : DOMSnapshot)
    (hsame : current.rootNode = baseline.rootNode)
    (hmem : ∃ n ∈ preorderN baseline.rootNode, n.id = some "foo")
    (hwf : ∀ n ∈ preorderN baseline.rootNode, (n.attributes.map Prod.fst).Nodup) :
    ∃ b t, findElementById baseline.rootNode "foo" = some b ∧
      healSelector "#foo" baseline current =
        ⟨"#foo", (calculateSimilarityScore b b).score, HealingStrategy.idBased,
          HealSource.local⟩ :: t ∧
      (calculateSimilarityScore b b).score < 1 := by
  obtain ⟨b, hb⟩ := Option.isSome_iff_exists.1
    (findById_isSome baseline.rootNode "foo" hmem)
  obtain ⟨hbpre, hbid⟩ := findById_mem_id baseline.rootNode "foo" b hb
  have hwfb := hwf b hbpre
  have hfindSel : findElementBySelector baseline.rootNode "#foo" = some b := by
    rw [findElementBySelector, if_pos (by decide)]
    rw [show ("#foo" : String).drop 1 = "foo" from by decide]
    exact hb
  have hbc : b ∈ findCandidateElements b baseline.rootNode := by
    rw [findCandidateElements]
    exact (mem_findElementsByFeatures baseline.rootNode (extractFeatures b)
      b.tagName b).2 ⟨hbpre, candidatePred_self b "foo" hbid (by decide)⟩
  have hlenne : ¬ (findCandidateElements b baseline.rootNode).length = 0 := by
    intro h0
    rw [List.length_eq_zero] at h0
    rw [h0] at hbc
    exact List.not_mem_nil b hbc
  have hheal : healSelector "#foo" baseline current =
      sortByDesc (fun r => r.score)
        (((scoreElements b (findCandidateElements b baseline.rootNode)).filter
            (fun c => !decide (c.score < 0.3))).flatMap
          (fun c =>
            (generateSelectors c.element baseline.rootNode).map
              (fun s =>
                { selector := s.value
                  score := c.score * s.specificity
                  strategy := s.strategy
                  source := HealSource.local }))) := by
    rw [healSelector_eq_some "#foo" baseline current b hfindSel, hsame, if_neg hlenne]
  obtain ⟨hc, tc, hscored⟩ :
      ∃ x xs, scoreElements b (findCandidateElements b baseline.rootNode) = x :: xs := by
    rcases hsE : scoreElements b (findCandidateElements b baseline.rootNode) with _ | ⟨x, xs⟩
    · exfalso
      rw [scoreElements] at hsE
      refine sortByDesc_ne_nil _ _ ?_ hsE
      intro hmap
      rw [List.map_eq_nil_iff] at hmap
      rw [hmap] at hbc
      exact List.not_mem_nil b hbc
    · exact ⟨x, xs, rfl⟩
  have hsortmap : sortByDesc (fun sc : ScoredCandidate => sc.score)
      ((findCandidateElements b baseline.rootNode).map
        (fun element =>
          ⟨element, (calculateSimilarityScore b element).score,
            (calculateSimilarityScore b element).matchedFeatures⟩)) = hc :: tc := by
    rw [scoreElements] at hscored
    exact hscored
  have hcmem : hc ∈ (findCandidateElements b baseline.rootNode).map
      (fun element =>
        (⟨element, (calculateSimilarityScore b element).score,
          (calculateSimilarityScore b element).matchedFeatures⟩ : ScoredCandidate)) := by
    refine (mem_sortByDesc (fun sc : ScoredCandidate => sc.score) _ hc).1 ?_
    rw [hsortmap]
    exact List.mem_cons_self _ _
  have hmapbound : ∀ a ∈ (findCandidateElements b baseline.rootNode).map
      (fun element =>
        (⟨element, (calculateSimilarityScore b element).score,
          (calculateSimilarityScore b element).matchedFeatures⟩ : ScoredCandidate)),
      a.score ≤ (calculateSimilarityScore b b).score := by
    intro a ha
    rw [List.mem_map] at ha
    obtain ⟨e, -, rfl⟩ := ha
    exact calcSim_score_le_self b e hwfb
  have hble : (calculateSimilarityScore b b).score ≤ hc.score := by
    have hFb : (⟨b, (calculateSimilarityScore b b).score,
        (calculateSimilarityScore b b).matchedFeatures⟩ : ScoredCandidate) ∈
        (findCandidateElements b baseline.rootNode).map
          (fun element =>
            ⟨element, (calculateSimilarityScore b element).score,
              (calculateSimilarityScore b element).matchedFeatures⟩) :=
      List.mem_map_of_mem _ hbc
    exact sortByDesc_head_max (fun sc : ScoredCandidate => sc.score) _ hc tc
      hsortmap _ hFb
  have hscore_eq : hc.score = (calculateSimilarityScore b b).score :=
    le_antisymm (hmapbound hc hcmem) hble
  obtain ⟨e, he, hFe⟩ := List.mem_map.1 hcmem
  have hcel : hc.element = e := by
    rw [← hFe]
  have hcesc : hc.score = (calculateSimilarityScore b e).score := by
    rw [← hFe]
  have heid : e.id = some "foo" := by
    by_contra hne
    have hlt := calcSim_score_lt_self_of_id_ne b e "foo" hwfb hbid (by decide) hne
    rw [← hcesc, hscore_eq] at hlt
    exact lt_irrefl _ hlt
  have hcid : hc.element.id = some "foo" := by
    rw [hcel]
    exact heid
  have hp : (!decide (hc.score < 0.3)) = true := by
    have hge : (9 : ℚ)/10 ≤ hc.score := by
      rw [hscore_eq]
      exact calcSim_score_self_ge b "foo" hwfb hbid (by decide)
    have hnl : ¬ hc.score < 0.3 := not_lt.2 (le_trans (by norm_num) hge)
    simp [hnl]
  have hfilter : (hc :: tc).filter (fun c => !decide (c.score < 0.3)) =
      hc :: tc.filter (fun c => !decide (c.score < 0.3)) :=
    List.filter_cons_of_pos hp
  obtain ⟨vs, hgen⟩ :=
    generateSelectors_head_id hc.element baseline.rootNode "foo" hcid (by decide)
  have hL : ((scoreElements b (findCandidateElements b baseline.rootNode)).filter
        (fun c => !decide (c.score < 0.3))).flatMap
      (fun c =>
        (generateSelectors c.element baseline.rootNode).map
          (fun s =>
            ({ selector := s.value
               score := c.score * s.specificity
               strategy := s.strategy
               source := HealSource.local } : HealingResult))) =
      (⟨"#foo", (calculateSimilarityScore b b).score, HealingStrategy.idBased,
          HealSource.local⟩ : HealingResult) ::
        (vs.map (fun s =>
            ({ selector := s.value
               score := hc.score * s.specificity
               strategy := s.strategy
               source := HealSource.local } : HealingResult)) ++
          (tc.filter (fun c => !decide (c.score < 0.3))).flatMap
            (fun c =>
              (generateSelectors c.element baseline.rootNode).map
                (fun s =>
                  ({ selector := s.value
                     score := c.score * s.specificity
                     strategy := s.strategy
                     source := HealSource.local } : HealingResult)))) := by
    rw [hscored, hfilter, List.flatMap_cons, hgen, List.map_cons, List.cons_append]
    congr 1
    rw [mul_one, hscore_eq]
    rfl
  have hboundL : ∀ r ∈ ((scoreElements b (findCandidateElements b baseline.rootNode)).filter
        (fun c => !decide (c.score < 0.3))).flatMap
      (fun c =>
        (generateSelectors c.element baseline.rootNode).map
          (fun s =>
            ({ selector := s.value
               score := c.score * s.specificity
               strategy := s.strategy
               source := HealSource.local } : HealingResult))),
      r.score ≤ (calculateSimilarityScore b b).score := by
    intro r hr
    rw [List.mem_flatMap] at hr
    obtain ⟨c, hcm, hr2⟩ := hr
    rw [List.mem_map] at hr2
    obtain ⟨s, hsmem, rfl⟩ := hr2
    rw [List.mem_filter] at hcm
    have hcin : c ∈ (findCandidateElements b baseline.rootNode).map
        (fun element =>
          (⟨element, (calculateSimilarityScore b element).score,
            (calculateSimilarityScore b element).matchedFeatures⟩ : ScoredCandidate)) := by
      refine (mem_sortByDesc (fun sc : ScoredCandidate => sc.score) _ c).1 ?_
      have := hcm.1
      rw [scoreElements] at this
      exact this
    obtain ⟨e', -, rfl⟩ := List.mem_map.1 hcin
    have h0 : 0 ≤ (calculateSimilarityScore b e').score := calcSim_score_nonneg b e'
    have h1 : (calculateSimilarityScore b e').score ≤ (calculateSimilarityScore b b).score :=
      calcSim_score_le_self b e' hwfb
    have hspec := generateSelectors_spec_bounds _ _ s hsmem
    show (calculateSimilarityScore b e').score * s.specificity ≤ _
    calc (calculateSimilarityScore b e').score * s.specificity
        ≤ (calculateSimilarityScore b e').score * 1 := by nlinarith [hspec.1, hspec.2]
      _ ≤ (calculateSimilarityScore b b).score := by
          rw [mul_one]
          exact h1
  rw [hL] at hboundL
  obtain ⟨t, ht⟩ := sortByDesc_cons_of_max (fun r : HealingResult => r.score) _ _ hboundL
  refine ⟨b, t, hb, ?_, calcSim_score_lt_one b b⟩
  rw [hheal, hL, ht]

/-- C1 (amended): when the current snapshot's tree is identical to the
baseline snapshot's tree, the baseline tree contains an element with id
`foo`, and attribute keys are unique (as JavaScript objects guarantee),
healing `#foo` yields a top HealingResult with selector `#foo` whose score
is the resolved baseline element's self-similarity score — strictly less
than `1.0`, not equal to it. -/
theorem claim1_roundtrip (baseline current : DOMSnapshot)
    (hsame : current.rootNode = baseline.rootNode)
    (hmem : ∃ n ∈ preorderN baseline.rootNode, n.id = some "foo")
    (hwf : ∀ n ∈ preorderN baseline.rootNode, (n.attributes.map Prod.fst).Nodup) :
    ∃ b t, findElementById baseline.rootNode "foo" = some b ∧
      healSelector "#foo" baseline current =
        ⟨"#foo", (calculateSimilarityScore b b).score, HealingStrategy.idBased,
          HealSource.local⟩ :: t ∧
      (calculateSimilarityScore b b).score < 1 :=
  healSelector_roundtrip_core baseline current hsame hmem hwf

theorem examplePre : preorderN exampleNode = [exampleNode] := by
  unfold exampleNode
  rw [preorderN, preorderL]

theorem exampleMem : ∃ n ∈ preorderN exampleSnap.rootNode, n.id = some "foo" := by
  refine ⟨exampleNode, ?_, rfl⟩
  show exampleNode ∈ preorderN exampleNode
  rw [examplePre]
  exact List.mem_cons_self _ _

theorem exampleWf :
    ∀ n ∈ preorderN exampleSnap.rootNode, (n.attributes.map Prod.fst).Nodup := by
  intro n hn
  have hn' : n ∈ preorderN exampleNode := hn
  rw [examplePre] at hn'
  rw [List.mem_singleton] at hn'
  subst hn'
  simp [exampleNode, DOMNode.attributes]

theorem claim1_witness :
    ∃ b t, findElementById exampleSnap.rootNode "foo" = some b ∧
      healSelector "#foo" exampleSnap exampleSnap =
        ⟨"#foo", (calculateSimilarityScore b b).score, HealingStrategy.idBased,
          HealSource.local⟩ :: t ∧
      (calculateSimilarityScore b b).score < 1 :=
  claim1_roundtrip exampleSnap exampleSnap rfl exampleMem exampleWf

/-- C1 counterexample: on a concrete identical snapshot pair whose baseline
tree has an element with id `foo`, the top healing result does carry
selector `#foo` but its score is not `1.0`, refuting the claim as
stated. -/
theorem claim1_counterexample :
    ∃ r t, healSelector "#foo" exampleSnap exampleSnap = r :: t ∧
      r.selector = "#foo" ∧ r.score ≠ 1 := by
  obtain ⟨b, t, -, hheal, hlt⟩ :=
    healSelector_roundtrip_core exampleSnap exampleSnap rfl exampleMem exampleWf
  exact ⟨_, t, hheal, rfl, ne_of_lt hlt⟩

end CyFix
